import Mathlib

/-! # Translation binding registry of HomeDicator (`ui/i18n_helper.h`)

A shallow embedding of the class `I18nHelper`.

* A widget pointer `lv_obj_t *` is the address it holds, a natural number.
* A `const char *` argument is a NUL-terminated character string; it is
  represented by the `String` of the characters before the terminator, and
  `nullptr` by `none`.  Every `std::string` of the class is built from such a
  string (or from a piece of one), so `std::string(key)` and `.c_str()` are the
  identity on the representation.
* `std::map<lv_obj_t *, V>` is the list of its entries in ascending key order,
  which is the order in which a range-for visits them.
* The toolkit (LVGL) and the translation lookup `esphome::i18n::tr` are outside
  the class.  Calls into the toolkit that have an effect are recorded, in program
  order, as a list of `LvCall`; `tr` and `lv_dropdown_get_options` are taken as
  parameters.  The `ESP_LOG*` statements have no effect on the registry or
  the toolkit and are left out.
-/

namespace HomeDicator

/-- Address held by an `lv_obj_t *`. -/
abbrev lv_obj_ptr := Nat

/-! ## `std::map` keyed by widget pointer -/

/-- A `std::map<lv_obj_t *, V>`, given by its entries in iteration order. -/
structure StdMap (β : Type) where
  entries : List (lv_obj_ptr × β)
deriving DecidableEq, Repr

namespace StdMap

variable {β : Type}

/-- The keys of the map, in iteration order. -/
def keys (m : StdMap β) : List lv_obj_ptr := m.entries.map Prod.fst

/-- Strictly ascending keys: the representation invariant of `std::map`. Every
operation below keeps it (`StdMap.ascending_assign`, `StdMap.ascending_erase`). -/
def Ascending (m : StdMap β) : Prop := m.keys.Pairwise (· < ·)

instance (m : StdMap β) : Decidable m.Ascending := by
  unfold Ascending
  infer_instance

/-- The default-constructed (empty) map. -/
def empty : StdMap β := ⟨[]⟩

/-- Search of a list of entries for the key `k`. -/
def findEntries : List (lv_obj_ptr × β) → lv_obj_ptr → Option β
  | [], _ => none
  | (k', v) :: rest, k => if k' = k then some v else findEntries rest k

/-- The value at `k`; `none` stands for `find(k) == end()`. -/
def find (m : StdMap β) (k : lv_obj_ptr) : Option β := findEntries m.entries k

/-- Ordered insertion of `(k, v)`, overwriting the entry of `k` when present. -/
def assignEntries : List (lv_obj_ptr × β) → lv_obj_ptr → β → List (lv_obj_ptr × β)
  | [], k, v => [(k, v)]
  | (k', v') :: rest, k, v =>
    if k < k' then (k, v) :: (k', v') :: rest
    else if k = k' then (k, v) :: rest
    else (k', v') :: assignEntries rest k v

/-- The map after `m[k] = v`. -/
def assign (m : StdMap β) (k : lv_obj_ptr) (v : β) : StdMap β :=
  ⟨assignEntries m.entries k v⟩

/-- Removal of the entry with key `k`, when there is one. -/
def eraseEntries : List (lv_obj_ptr × β) → lv_obj_ptr → List (lv_obj_ptr × β)
  | [], _ => []
  | (k', v') :: rest, k =>
    if k' = k then eraseEntries rest k else (k', v') :: eraseEntries rest k

/-- The map after `m.erase(k)`. -/
def erase (m : StdMap β) (k : lv_obj_ptr) : StdMap β :=
  ⟨eraseEntries m.entries k⟩

/-- Reading through `m[k]`: the map afterwards and the value referred to; when
`k` is absent `operator[]` first inserts a value-initialised entry. -/
def index [Inhabited β] (m : StdMap β) (k : lv_obj_ptr) : StdMap β × β :=
  match m.find k with
  | some v => (m, v)
  | none => (m.assign k default, default)

end StdMap

/-! ## The toolkit -/

/-- The calls into LVGL that change the toolkit's state. The callback and
event code of `lv_obj_add_event_cb` are always `on_widget_delete` and
`LV_EVENT_DELETE`, with the registry as user data. -/
inductive LvCall where
  | lv_obj_add_event_cb (obj : lv_obj_ptr)
  | lv_label_set_text (obj : lv_obj_ptr) (text : String)
  | lv_dropdown_set_options (obj : lv_obj_ptr) (options : String)
deriving DecidableEq, Repr

/-- The part of `esphome::lvgl::LvDropdownType` the class reads. -/
structure LvDropdownType where
  obj : lv_obj_ptr
deriving DecidableEq, Repr

/-! ## `size_t` -/

/-- Width of `size_t` on the target (ESP32). -/
def SIZE_BITS : Nat := 32

/-- Subtraction `a - b` of two `size_t` values, wrapping around below zero. -/
def size_t_sub (a b : Nat) : Nat :=
  if b ≤ a then a - b else (a + 2 ^ SIZE_BITS - b) % 2 ^ SIZE_BITS

/-! ## The class -/

/-- The data members of `I18nHelper`. -/
structure I18nHelper where
  registry_label : StdMap String
  registry_dropdown : StdMap (List String)
deriving DecidableEq, Repr

/-- Both maps satisfy the `std::map` invariant. -/
def I18nHelper.WellFormed (self : I18nHelper) : Prop :=
  self.registry_label.Ascending ∧ self.registry_dropdown.Ascending

instance (self : I18nHelper) : Decidable self.WellFormed := by
  unfold I18nHelper.WellFormed
  infer_instance

/-- The freshly constructed helper: both registries empty. -/
def I18nHelper.init : I18nHelper := ⟨StdMap.empty, StdMap.empty⟩

/-- The event handed to a callback: its user data (`nullptr` is `none`,
otherwise the registry pointed to) and its current target. -/
structure lv_event_t where
  user_data : Option I18nHelper
  current_target : lv_obj_ptr

/-- `I18nHelper::on_widget_delete`: the registry pointed to by the user data
after the callback (`none` when the user data is null). -/
def on_widget_delete (e : lv_event_t) : Option I18nHelper :=
  let obj := e.current_target
  match e.user_data with
  | some self =>
    some { registry_label := self.registry_label.erase obj,
           registry_dropdown := self.registry_dropdown.erase obj }
  | none => none

/-- `I18nHelper::translate_label`: the helper afterwards, the toolkit calls
made, and the returned text. -/
def translate_label (tr : String → String) (self : I18nHelper) (obj : lv_obj_ptr)
    (key : String) : I18nHelper × List LvCall × String :=
  let first : I18nHelper × List LvCall :=
    if self.registry_label.find obj = none then
      ({ self with registry_label := self.registry_label.assign obj key },
        [LvCall.lv_obj_add_event_cb obj])
    else (self, [])
  let self2 : I18nHelper :=
    { first.1 with registry_label := first.1.registry_label.assign obj key }
  (self2, first.2, tr key)

/-- One `std::getline(tokenStream, token, '\n')` on a stream whose unread
characters are `input`: `none` when nothing can be extracted (the stream then
converts to `false`), otherwise the token and the characters left unread. The
delimiter is extracted and dropped. -/
def getline (input : List Char) : Option (List Char × List Char) :=
  match input with
  | [] => none
  | _ :: _ =>
    some (input.takeWhile (fun c => c != '\n'),
      (input.dropWhile (fun c => c != '\n')).drop 1)

/-- The loop `while (std::getline(tokenStream, token, '\n')) { ... }` of
`translate_select`, run for at most `fuel` iterations. Each iteration extracts
at least one character, so `tokenStream.length + 1` iterations always reach
the failing `getline` (`getline_loop_fuel`). -/
def getline_loop : Nat → List Char → List String → List String
  | 0, _, keys => keys
  | fuel + 1, tokenStream, keys =>
    match getline tokenStream with
    | none => keys
    | some (token, rest) =>
      let token :=
        if token ≠ [] ∧ token.getLast? = some '\r' then token.dropLast else token
      getline_loop fuel rest (keys ++ [String.mk token])

/-- Lines 55-65 of `translate_select`: the keys read from the raw options. -/
def split_options (raw_opts : String) : List String :=
  getline_loop (raw_opts.data.length + 1) raw_opts.data []

/-- The `for` loop of `refresh_dropdown_options` from index `i` on, run for at
most `fuel` iterations. -/
def refresh_loop (tr : String → String) (keys : List String) :
    Nat → Nat → String → String
  | 0, _, final_opts => final_opts
  | fuel + 1, i, final_opts =>
    if h : i < keys.length then
      let final_opts := final_opts ++ tr keys[i]
      let final_opts :=
        if i < size_t_sub keys.length 1 then final_opts ++ "\n" else final_opts
      refresh_loop tr keys fuel (i + 1) final_opts
    else final_opts

/-- `I18nHelper::refresh_dropdown_options`: the helper afterwards and the
toolkit calls made. -/
def refresh_dropdown_options (tr : String → String) (self : I18nHelper)
    (obj : lv_obj_ptr) : I18nHelper × List LvCall :=
  if self.registry_dropdown.find obj = none then (self, [])
  else
    let r := self.registry_dropdown.index obj
    let keys := r.2
    let final_opts := refresh_loop tr keys (keys.length + 1) 0 ""
    ({ self with registry_dropdown := r.1 },
      [LvCall.lv_dropdown_set_options obj final_opts])

/-- `I18nHelper::translate_select`. The argument is `none` for a null
`dropdown`; `lv_dropdown_get_options` gives the raw options of a widget, `none`
for a null result. -/
def translate_select (tr : String → String)
    (lv_dropdown_get_options : lv_obj_ptr → Option String) (self : I18nHelper)
    (dropdown : Option LvDropdownType) : I18nHelper × List LvCall :=
  match dropdown with
  | none => (self, [])
  | some d =>
    let obj := d.obj
    if self.registry_dropdown.find obj = none then
      match lv_dropdown_get_options obj with
      | none => (self, [])
      | some raw_opts =>
        let keys := split_options raw_opts
        let self1 : I18nHelper :=
          { self with registry_dropdown := self.registry_dropdown.assign obj keys }
        let r := refresh_dropdown_options tr self1 obj
        (r.1, LvCall.lv_obj_add_event_cb obj :: r.2)
    else refresh_dropdown_options tr self obj

/-- `I18nHelper::update_translations`: the labels in map order, then the
dropdowns in map order. -/
def update_translations (tr : String → String) (self : I18nHelper) :
    I18nHelper × List LvCall :=
  let label_calls : List LvCall :=
    self.registry_label.entries.map (fun e => LvCall.lv_label_set_text e.1 (tr e.2))
  self.registry_dropdown.entries.foldl
    (fun (acc : I18nHelper × List LvCall) e =>
      let r := refresh_dropdown_options tr acc.1 e.1
      (r.1, acc.2 ++ r.2))
    (self, label_calls)

end HomeDicator

namespace HomeDicator

/-! ## Definitions used to state the properties -/

/-- The option-text write that `refresh_dropdown_options` makes for the widget of
an entry visited by `update_translations`. -/
def dropdown_write (tr : String → String) (self : I18nHelper)
    (e : lv_obj_ptr × List String) : LvCall :=
  LvCall.lv_dropdown_set_options e.1
    (String.intercalate "\n" (((self.registry_dropdown.find e.1).getD []).map tr))

/-- Split, then join: the option text that the loop of `refresh_dropdown_options`
rebuilds, under the identity lookup, from the keys that `translate_select` reads
from the raw options `s`. -/
def split_join (s : String) : String :=
  refresh_loop (fun key => key) (split_options s) ((split_options s).length + 1) 0 ""

/-- The text with the trailing carriage return of every line removed: a `'\r'` is
dropped when it is the last character of its line, that is, when the end of the
text or a newline follows it. -/
def strip_line_cr : List Char → List Char
  | [] => []
  | c :: rest =>
    if c = '\r' ∧ (rest = [] ∨ rest.head? = some '\n') then strip_line_cr rest
    else c :: strip_line_cr rest

/-- The text without its final newline, when it ends with one. -/
def drop_final_newline (s : List Char) : List Char :=
  if s.getLast? = some '\n' then s.dropLast else s

/-- The widget a toolkit call acts on. -/
def LvCall.target : LvCall → lv_obj_ptr
  | .lv_obj_add_event_cb obj => obj
  | .lv_label_set_text obj _ => obj
  | .lv_dropdown_set_options obj _ => obj

/-- Whether a toolkit call is a label-text write (`lv_label_set_text`) to `w`. -/
def LvCall.isLabelTextOf (w : lv_obj_ptr) : LvCall → Bool
  | .lv_label_set_text obj _ => decide (obj = w)
  | _ => false

/-- Whether a toolkit call is an option-text write (`lv_dropdown_set_options`) to
`w`. -/
def LvCall.isOptionTextOf (w : lv_obj_ptr) : LvCall → Bool
  | .lv_dropdown_set_options obj _ => decide (obj = w)
  | _ => false

/-- Successive calls `translate_label(w, key)` on one widget, one for each key of
the list, with nothing in between: the helper afterwards and all toolkit calls
made. -/
def translate_label_calls (tr : String → String) (self : I18nHelper) (w : lv_obj_ptr) :
    List String → I18nHelper × List LvCall
  | [] => (self, [])
  | key :: rest =>
    ((translate_label_calls tr (translate_label tr self w key).1 w rest).1,
      (translate_label tr self w key).2.1
        ++ (translate_label_calls tr (translate_label tr self w key).1 w rest).2)

/-- Successive calls `translate_select` on one dropdown, with nothing in between;
the list gives the (non-null) raw options the toolkit reports at each call. -/
def translate_select_calls (tr : String → String) (self : I18nHelper) (w : lv_obj_ptr) :
    List String → I18nHelper × List LvCall
  | [] => (self, [])
  | raw_opts :: rest =>
    ((translate_select_calls tr
        (translate_select tr (fun _ => some raw_opts) self (some ⟨w⟩)).1 w rest).1,
      (translate_select tr (fun _ => some raw_opts) self (some ⟨w⟩)).2
        ++ (translate_select_calls tr
            (translate_select tr (fun _ => some raw_opts) self (some ⟨w⟩)).1 w rest).2)

/-- The body of the `if` at lines 61-63: one trailing `'\r'` popped off a token. -/
def pop_back_cr (token : List Char) : List Char :=
  if token ≠ [] ∧ token.getLast? = some '\r' then token.dropLast else token

/-- The newline-delimited lines of a text that hold a key: the pieces between the
newlines, without the empty piece after a final newline (or of the empty text). -/
def key_lines (s : List Char) : List (List Char) :=
  if (s.splitOn '\n').getLast? = some [] then (s.splitOn '\n').dropLast else s.splitOn '\n'

/-- A key is its line with one trailing carriage return removed when the line
ends with one, and the line itself otherwise. -/
def key_of_line (key : String) (line : List Char) : Prop :=
  (line.getLast? = some '\r' → key.data ++ ['\r'] = line) ∧
  (line.getLast? ≠ some '\r' → key.data = line)

/-- The keys joined by line endings, the ending after the key at position `i`
being `"\r\n"` when `crlf i` holds and `"\n"` otherwise. -/
def join_endings (crlf : Nat → Bool) : Nat → List String → String
  | _, [] => ""
  | _, [key] => key
  | i, key :: next :: rest =>
    key ++ (if crlf i then "\r\n" else "\n") ++ join_endings crlf (i + 1) (next :: rest)

/-- The loop of `refresh_dropdown_options` once more, recording next to the text
built the indices `i` at which `keys[i]` is read and the values of
`keys.size() - 1` that are computed, in order. -/
def refresh_loop_reads (tr : String → String) (keys : List String) :
    Nat → Nat → String → String × List Nat × List Nat
  | 0, _, final_opts => (final_opts, [], [])
  | fuel + 1, i, final_opts =>
    if h : i < keys.length then
      let final_opts := final_opts ++ tr keys[i]
      let bound := size_t_sub keys.length 1
      let final_opts := if i < bound then final_opts ++ "\n" else final_opts
      let r := refresh_loop_reads tr keys fuel (i + 1) final_opts
      (r.1, i :: r.2.1, bound :: r.2.2)
    else (final_opts, [], [])

/-- The number of maps (0, 1 or 2) in which a widget has an entry. -/
def bindings_of (self : I18nHelper) (w : lv_obj_ptr) : Nat :=
  (if self.registry_label.find w = none then 0 else 1)
    + (if self.registry_dropdown.find w = none then 0 else 1)

/-- The helper together with the toolkit's record of the widgets on which
`on_widget_delete` is registered for `LV_EVENT_DELETE`, one entry for each
registration. -/
structure World where
  helper : I18nHelper
  event_cbs : List lv_obj_ptr
deriving DecidableEq, Repr

/-- The start: an empty registry and no callback registered. -/
def World.init : World := ⟨I18nHelper.init, []⟩

/-- The widgets on which a list of toolkit calls registers the destroy callback. -/
def registrations : List LvCall → List lv_obj_ptr
  | [] => []
  | LvCall.lv_obj_add_event_cb obj :: rest => obj :: registrations rest
  | _ :: rest => registrations rest

/-- Delivery of the destroy event of widget `obj` to `n` registered callbacks,
each one a call of `on_widget_delete` with the helper as user data. -/
def deliver_delete (helper : I18nHelper) (obj : lv_obj_ptr) : Nat → I18nHelper
  | 0 => helper
  | n + 1 =>
    match on_widget_delete ⟨some helper, obj⟩ with
    | some after => deliver_delete after obj n
    | none => deliver_delete helper obj n

/-- What can happen to the helper: a call of one of its four methods, or the
toolkit tearing a widget down. For `translate_select` the second argument is
what `lv_dropdown_get_options` reports at that call. -/
inductive Op where
  | translate_label (obj : lv_obj_ptr) (key : String)
  | translate_select (dropdown : Option LvDropdownType) (raw_opts : Option String)
  | refresh_dropdown_options (obj : lv_obj_ptr)
  | update_translations
  | teardown (obj : lv_obj_ptr)
deriving DecidableEq, Repr

/-- Whether the operation is one of the two binding calls. -/
def Op.isBind : Op → Bool
  | .translate_label _ _ => true
  | .translate_select _ _ => true
  | _ => false

/-- One operation, under the lookup `tr` in force when it happens. Teardown of a
widget delivers the destroy event to every callback registered on it and then
discards those registrations. -/
def World.step (tr : String → String) (world : World) : Op → World
  | .translate_label obj key =>
    ⟨(translate_label tr world.helper obj key).1,
      world.event_cbs ++ registrations (translate_label tr world.helper obj key).2.1⟩
  | .translate_select dropdown raw_opts =>
    ⟨(translate_select tr (fun _ => raw_opts) world.helper dropdown).1,
      world.event_cbs
        ++ registrations (translate_select tr (fun _ => raw_opts) world.helper dropdown).2⟩
  | .refresh_dropdown_options obj =>
    ⟨(refresh_dropdown_options tr world.helper obj).1,
      world.event_cbs ++ registrations (refresh_dropdown_options tr world.helper obj).2⟩
  | .update_translations =>
    ⟨(update_translations tr world.helper).1,
      world.event_cbs ++ registrations (update_translations tr world.helper).2⟩
  | .teardown obj =>
    ⟨deliver_delete world.helper obj (world.event_cbs.count obj),
      world.event_cbs.filter (fun o => decide (o ≠ obj))⟩

/-- A sequence of operations, each with the lookup in force at its time. -/
def World.run (world : World) : List ((String → String) × Op) → World
  | [] => world
  | s :: rest => World.run (world.step s.1 s.2) rest

/-- The number of callbacks registered on each widget is the number of maps that
hold it. -/
def Counted (world : World) : Prop :=
  ∀ w, world.event_cbs.count w = bindings_of world.helper w

end HomeDicator

/-! # Theorems -/

namespace HomeDicator

/-! ## Facts about the map model -/

namespace StdMap

variable {β : Type}

theorem findEntries_assignEntries_self (l : List (lv_obj_ptr × β)) (k : lv_obj_ptr) (v : β) :
    findEntries (assignEntries l k v) k = some v := by
  induction l with
  | nil => simp [assignEntries, findEntries]
  | cons e rest ih =>
    obtain ⟨k', v'⟩ := e
    unfold assignEntries
    by_cases h1 : k < k'
    · simp [h1, findEntries]
    · by_cases h2 : k = k'
      · subst h2
        simp [findEntries]
      · have h3 : ¬ k' = k := fun h => h2 h.symm
        simp [h1, h2, h3, findEntries, ih]

theorem findEntries_assignEntries_ne (l : List (lv_obj_ptr × β)) (k x : lv_obj_ptr) (v : β)
    (hx : x ≠ k) : findEntries (assignEntries l k v) x = findEntries l x := by
  induction l with
  | nil =>
    have h : ¬ k = x := fun h => hx h.symm
    simp [assignEntries, findEntries, h]
  | cons e rest ih =>
    obtain ⟨k', v'⟩ := e
    have h : ¬ k = x := fun h => hx h.symm
    unfold assignEntries
    by_cases h1 : k < k'
    · simp [h1, findEntries, h]
    · by_cases h2 : k = k'
      · subst h2
        simp [findEntries, h]
      · simp [h1, h2, findEntries, ih]

theorem mem_keys_assignEntries (l : List (lv_obj_ptr × β)) (k x : lv_obj_ptr) (v : β) :
    x ∈ (assignEntries l k v).map Prod.fst ↔ x = k ∨ x ∈ l.map Prod.fst := by
  induction l with
  | nil => simp [assignEntries]
  | cons e rest ih =>
    obtain ⟨k', v'⟩ := e
    unfold assignEntries
    by_cases h1 : k < k'
    · simp [h1]
    · by_cases h2 : k = k'
      · subst h2
        simp
      · simp only [h1, h2, if_false, List.map_cons, List.mem_cons, ih]
        tauto

theorem find_assign_self (m : StdMap β) (k : lv_obj_ptr) (v : β) :
    (m.assign k v).find k = some v :=
  findEntries_assignEntries_self m.entries k v

theorem find_assign_ne (m : StdMap β) (k x : lv_obj_ptr) (v : β) (hx : x ≠ k) :
    (m.assign k v).find x = m.find x :=
  findEntries_assignEntries_ne m.entries k x v hx

/-- `m[k] = v` keeps the keys strictly ascending. -/
theorem ascending_assign (m : StdMap β) (k : lv_obj_ptr) (v : β) (h : m.Ascending) :
    (m.assign k v).Ascending := by
  obtain ⟨l⟩ := m
  unfold Ascending keys assign at *
  simp only at h ⊢
  induction l with
  | nil => simp [assignEntries]
  | cons e rest ih =>
    obtain ⟨k', v'⟩ := e
    have hcons : (k' :: rest.map Prod.fst).Pairwise (· < ·) := h
    rw [List.pairwise_cons] at hcons
    obtain ⟨hhead, htail⟩ := hcons
    unfold assignEntries
    by_cases h1 : k < k'
    · simp only [h1, if_true]
      show (k :: k' :: rest.map Prod.fst).Pairwise (· < ·)
      refine List.pairwise_cons.mpr ⟨?_, h⟩
      intro x hx
      rcases List.mem_cons.mp hx with hx | hx
      · subst hx
        exact h1
      · exact lt_trans h1 (hhead x hx)
    · by_cases h2 : k = k'
      · subst h2
        simp only [lt_self_iff_false, if_false, if_true]
        exact h
      · simp only [h1, h2, if_false]
        show (k' :: (assignEntries rest k v).map Prod.fst).Pairwise (· < ·)
        refine List.pairwise_cons.mpr ⟨?_, ih htail⟩
        intro x hx
        rcases (mem_keys_assignEntries rest k x v).mp hx with hx | hx
        · subst hx
          exact lt_of_le_of_ne (not_lt.mp h1) (Ne.symm h2)
        · exact hhead x hx

theorem eraseEntries_sublist (l : List (lv_obj_ptr × β)) (k : lv_obj_ptr) :
    List.Sublist (eraseEntries l k) l := by
  induction l with
  | nil => exact List.Sublist.slnil
  | cons e rest ih =>
    obtain ⟨k', v'⟩ := e
    unfold eraseEntries
    by_cases h : k' = k
    · simp only [h, if_true]
      exact List.Sublist.cons _ ih
    · simp only [h, if_false]
      exact List.Sublist.cons₂ _ ih

/-- `erase` keeps the keys strictly ascending. -/
theorem ascending_erase (m : StdMap β) (k : lv_obj_ptr) (h : m.Ascending) :
    (m.erase k).Ascending := by
  unfold Ascending keys erase at *
  exact List.Pairwise.sublist (List.Sublist.map _ (eraseEntries_sublist m.entries k)) h

theorem find_erase_self (m : StdMap β) (k : lv_obj_ptr) : (m.erase k).find k = none := by
  obtain ⟨l⟩ := m
  unfold find erase
  simp only
  induction l with
  | nil => simp [findEntries, eraseEntries]
  | cons e rest ih =>
    obtain ⟨k', v'⟩ := e
    by_cases h : k' = k
    · simp [eraseEntries, h, ih]
    · simp [eraseEntries, h, findEntries, ih]

theorem find_erase_ne (m : StdMap β) (k x : lv_obj_ptr) (hx : x ≠ k) :
    (m.erase k).find x = m.find x := by
  obtain ⟨l⟩ := m
  unfold find erase
  simp only
  induction l with
  | nil => simp [findEntries, eraseEntries]
  | cons e rest ih =>
    obtain ⟨k', v'⟩ := e
    by_cases h : k' = k
    · subst h
      have h' : ¬ k' = x := fun h2 => hx h2.symm
      simp [eraseEntries, findEntries, ih, h']
    · by_cases h3 : k' = x
      · subst h3
        simp [eraseEntries, h, findEntries]
      · simp [eraseEntries, h, findEntries, h3, ih]

theorem find_eq_none_iff (m : StdMap β) (k : lv_obj_ptr) : m.find k = none ↔ k ∉ m.keys := by
  obtain ⟨l⟩ := m
  unfold find keys
  simp only
  induction l with
  | nil => simp [findEntries]
  | cons e rest ih =>
    obtain ⟨k', v'⟩ := e
    by_cases h : k' = k
    · simp [findEntries, h]
    · have h' : ¬ k = k' := fun h2 => h h2.symm
      simp [findEntries, h, h', ih]

theorem mem_entries_of_find (m : StdMap β) (k : lv_obj_ptr) (v : β) (h : m.find k = some v) :
    (k, v) ∈ m.entries := by
  obtain ⟨l⟩ := m
  unfold find at h
  simp only at h ⊢
  induction l with
  | nil => simp [findEntries] at h
  | cons e rest ih =>
    obtain ⟨k', v'⟩ := e
    by_cases h1 : k' = k
    · subst h1
      simp [findEntries] at h
      simp [h]
    · simp [findEntries, h1] at h
      exact List.mem_cons_of_mem _ (ih h)

theorem find_of_mem_entries (m : StdMap β) (hm : m.Ascending) (k : lv_obj_ptr) (v : β)
    (h : (k, v) ∈ m.entries) : m.find k = some v := by
  obtain ⟨l⟩ := m
  unfold find
  unfold Ascending keys at hm
  simp only at h hm ⊢
  induction l with
  | nil => simp at h
  | cons e rest ih =>
    obtain ⟨k', v'⟩ := e
    have hcons : (k' :: rest.map Prod.fst).Pairwise (· < ·) := hm
    rw [List.pairwise_cons] at hcons
    obtain ⟨hhead, htail⟩ := hcons
    rcases List.mem_cons.mp h with h1 | h1
    · cases h1
      simp [findEntries]
    · have hk : k' < k := hhead k (List.mem_map_of_mem Prod.fst h1)
      have hne : ¬ k' = k := Nat.ne_of_lt hk
      simp [findEntries, hne, ih htail h1]

theorem erase_of_find_none (m : StdMap β) (k : lv_obj_ptr) (h : m.find k = none) :
    m.erase k = m := by
  obtain ⟨l⟩ := m
  unfold find at h
  unfold erase
  simp only at h ⊢
  congr 1
  induction l with
  | nil => rfl
  | cons e rest ih =>
    obtain ⟨k', v'⟩ := e
    by_cases h1 : k' = k
    · simp [findEntries, h1] at h
    · simp only [findEntries, h1, if_false] at h
      simp [eraseEntries, h1, ih h]

theorem index_of_find (m : StdMap (List String)) (k : lv_obj_ptr) (v : List String)
    (h : m.find k = some v) : m.index k = (m, v) := by
  unfold index
  rw [h]

end StdMap

/-! ## Facts about the loops -/

theorem size_t_sub_eq_mod (a b : Nat) (ha : a < 2 ^ SIZE_BITS) (hb : b < 2 ^ SIZE_BITS) :
    size_t_sub a b = (a + 2 ^ SIZE_BITS - b) % 2 ^ SIZE_BITS := by
  unfold size_t_sub
  by_cases h : b ≤ a
  · simp only [h, if_true]
    have h2 : a + 2 ^ SIZE_BITS - b = (a - b) + 2 ^ SIZE_BITS := by omega
    rw [h2, Nat.add_mod_right, Nat.mod_eq_of_lt (by omega)]
  · simp only [h, if_false]

theorem size_t_sub_one (n : Nat) (h : 0 < n) : size_t_sub n 1 = n - 1 := by
  unfold size_t_sub
  have h1 : 1 ≤ n := h
  simp only [h1, if_true]

theorem intercalate_go_append (x y sep : String) (l : List String) :
    String.intercalate.go (x ++ y) sep l = x ++ String.intercalate.go y sep l := by
  induction l generalizing y with
  | nil => simp [String.intercalate.go]
  | cons a rest ih =>
    simp only [String.intercalate.go]
    rw [String.append_assoc, String.append_assoc, ← String.append_assoc y sep a]
    exact ih _

theorem intercalate_singleton (sep a : String) : String.intercalate sep [a] = a := by
  simp [String.intercalate, String.intercalate.go]

theorem intercalate_cons_cons (sep a b : String) (l : List String) :
    String.intercalate sep (a :: b :: l) = a ++ sep ++ String.intercalate sep (b :: l) := by
  simp only [String.intercalate, String.intercalate.go]
  rw [String.append_assoc]
  rw [intercalate_go_append]
  rw [intercalate_go_append]
  rw [String.append_assoc]

/-- The loop of `refresh_dropdown_options`, started at index `i` with enough
iterations allowed, appends the newline-join of the translations of the keys from
`i` on. -/
theorem refresh_loop_eq (tr : String → String) (keys : List String) :
    ∀ (fuel i : Nat) (acc : String), i ≤ keys.length → keys.length - i < fuel →
      refresh_loop tr keys fuel i acc
        = acc ++ String.intercalate "\n" ((keys.drop i).map tr) := by
  intro fuel
  induction fuel with
  | zero => intro i acc _ h; omega
  | succ fuel ih =>
    intro i acc hi hfuel
    unfold refresh_loop
    by_cases h : i < keys.length
    · simp only [h, dif_pos]
      have hdrop : keys.drop i = keys[i] :: keys.drop (i + 1) := List.drop_eq_getElem_cons h
      rw [size_t_sub_one keys.length (by omega)]
      by_cases h2 : i < keys.length - 1
      · simp only [h2, if_true]
        have h3 : i + 1 < keys.length := by omega
        have hdrop2 : keys.drop (i + 1) = keys[i + 1] :: keys.drop (i + 1 + 1) :=
          List.drop_eq_getElem_cons h3
        rw [ih (i + 1) _ (by omega) (by omega), hdrop, hdrop2]
        simp only [List.map_cons]
        rw [intercalate_cons_cons]
        simp only [String.append_assoc]
      · simp only [h2, if_false]
        have h3 : keys.drop (i + 1) = [] := List.drop_eq_nil_of_le (by omega)
        rw [ih (i + 1) _ (by omega) (by omega), hdrop, h3]
        simp only [List.map_cons, List.map_nil]
        rw [intercalate_singleton]
        simp [String.intercalate]
    · simp only [h, dif_neg, not_false_eq_true]
      have h3 : keys.drop i = [] := List.drop_eq_nil_of_le (by omega)
      rw [h3]
      simp [String.intercalate]

/-- More iterations than keys are never used: the loop ends by its own test. -/
theorem refresh_loop_fuel (tr : String → String) (keys : List String) (fuel : Nat)
    (h : keys.length < fuel) :
    refresh_loop tr keys fuel 0 "" = refresh_loop tr keys (keys.length + 1) 0 "" := by
  rw [refresh_loop_eq tr keys fuel 0 "" (by omega) (by omega),
    refresh_loop_eq tr keys (keys.length + 1) 0 "" (by omega) (by omega)]

theorem refresh_dropdown_options_of_find_none (tr : String → String) (self : I18nHelper)
    (obj : lv_obj_ptr) (h : self.registry_dropdown.find obj = none) :
    refresh_dropdown_options tr self obj = (self, []) := by
  unfold refresh_dropdown_options
  simp [h]

theorem refresh_dropdown_options_of_find (tr : String → String) (self : I18nHelper)
    (obj : lv_obj_ptr) (keys : List String) (h : self.registry_dropdown.find obj = some keys) :
    refresh_dropdown_options tr self obj
      = (self, [LvCall.lv_dropdown_set_options obj (String.intercalate "\n" (keys.map tr))]) := by
  unfold refresh_dropdown_options
  rw [StdMap.index_of_find _ _ _ h]
  simp only [h]
  rw [refresh_loop_eq tr keys _ 0 "" (by omega) (by omega)]
  simp

theorem find_ne_none_of_mem {β : Type} (m : StdMap β) (e : lv_obj_ptr × β)
    (he : e ∈ m.entries) : m.find e.1 ≠ none := by
  intro h
  exact (StdMap.find_eq_none_iff m e.1).mp h (List.mem_map_of_mem Prod.fst he)

theorem update_translations_fold (tr : String → String) (self : I18nHelper) :
    ∀ (l : List (lv_obj_ptr × List String)) (acc : List LvCall),
      (∀ e ∈ l, self.registry_dropdown.find e.1 ≠ none) →
      l.foldl
        (fun (acc : I18nHelper × List LvCall) e =>
          ((refresh_dropdown_options tr acc.1 e.1).1,
            acc.2 ++ (refresh_dropdown_options tr acc.1 e.1).2))
        (self, acc)
        = (self, acc ++ l.map (dropdown_write tr self)) := by
  intro l
  induction l with
  | nil => intro acc _; simp
  | cons e rest ih =>
    intro acc hall
    have he : self.registry_dropdown.find e.1 ≠ none := hall e (List.mem_cons_self _ _)
    obtain ⟨ks, hks⟩ := Option.ne_none_iff_exists'.mp he
    simp only [List.foldl_cons]
    rw [refresh_dropdown_options_of_find tr self e.1 ks hks]
    simp only
    rw [ih _ (fun e' he' => hall e' (List.mem_cons_of_mem _ he'))]
    simp [dropdown_write, hks]

/-- What `update_translations` does: the registry is returned as it was, and the
calls are one label write per label entry followed by one option write per
dropdown entry, each in map order. -/
theorem update_translations_eq (tr : String → String) (self : I18nHelper) :
    update_translations tr self
      = (self,
          self.registry_label.entries.map (fun e => LvCall.lv_label_set_text e.1 (tr e.2))
            ++ self.registry_dropdown.entries.map (dropdown_write tr self)) := by
  unfold update_translations
  exact update_translations_fold tr self _ _
    (fun e he => find_ne_none_of_mem self.registry_dropdown e he)

theorem translate_label_registry (tr : String → String) (self : I18nHelper)
    (obj : lv_obj_ptr) (key : String) :
    (translate_label tr self obj key).1.registry_label
        = (if self.registry_label.find obj = none
            then (self.registry_label.assign obj key).assign obj key
            else self.registry_label.assign obj key) ∧
      (translate_label tr self obj key).1.registry_dropdown = self.registry_dropdown := by
  unfold translate_label
  by_cases h : self.registry_label.find obj = none
  · simp [h]
  · simp [h]

theorem translate_label_find (tr : String → String) (self : I18nHelper)
    (obj : lv_obj_ptr) (key : String) :
    (translate_label tr self obj key).1.registry_label.find obj = some key := by
  rw [(translate_label_registry tr self obj key).1]
  by_cases h : self.registry_label.find obj = none
  · simp only [h, if_true]
    exact StdMap.find_assign_self _ _ _
  · simp only [h, if_false]
    exact StdMap.find_assign_self _ _ _

theorem translate_label_ascending (tr : String → String) (self : I18nHelper)
    (obj : lv_obj_ptr) (key : String) (h : self.registry_label.Ascending) :
    (translate_label tr self obj key).1.registry_label.Ascending := by
  rw [(translate_label_registry tr self obj key).1]
  by_cases h1 : self.registry_label.find obj = none
  · simp only [h1, if_true]
    exact StdMap.ascending_assign _ _ _ (StdMap.ascending_assign _ _ _ h)
  · simp only [h1, if_false]
    exact StdMap.ascending_assign _ _ _ h

theorem label_write_mem_update_translations (tr : String → String) (self : I18nHelper)
    (w : lv_obj_ptr) (t : String) :
    LvCall.lv_label_set_text w t ∈ (update_translations tr self).2
      ↔ ∃ key, (w, key) ∈ self.registry_label.entries ∧ t = tr key := by
  rw [update_translations_eq]
  simp only [List.mem_append, List.mem_map, dropdown_write]
  constructor
  · rintro (⟨e, he, heq⟩ | ⟨e, _, heq⟩)
    · obtain ⟨k', v'⟩ := e
      simp only [LvCall.lv_label_set_text.injEq] at heq
      obtain ⟨h1, h2⟩ := heq
      subst h1
      exact ⟨v', he, h2.symm⟩
    · simp at heq
  · rintro ⟨key, hmem, ht⟩
    left
    exact ⟨(w, key), hmem, by simp [ht]⟩

theorem translate_select_first (tr : String → String)
    (lv_dropdown_get_options : lv_obj_ptr → Option String) (self : I18nHelper)
    (w : lv_obj_ptr) (raw_opts : String) (hnew : self.registry_dropdown.find w = none)
    (hraw : lv_dropdown_get_options w = some raw_opts) :
    translate_select tr lv_dropdown_get_options self (some ⟨w⟩)
      = ({ self with
            registry_dropdown := self.registry_dropdown.assign w (split_options raw_opts) },
          [LvCall.lv_obj_add_event_cb w,
            LvCall.lv_dropdown_set_options w
              (String.intercalate "\n" ((split_options raw_opts).map tr))]) := by
  unfold translate_select
  simp only [hnew, if_true, hraw]
  rw [refresh_dropdown_options_of_find tr _ w (split_options raw_opts)
    (StdMap.find_assign_self _ _ _)]

theorem translate_select_known (tr : String → String)
    (lv_dropdown_get_options : lv_obj_ptr → Option String) (self : I18nHelper)
    (w : lv_obj_ptr) (keys : List String) (h : self.registry_dropdown.find w = some keys) :
    translate_select tr lv_dropdown_get_options self (some ⟨w⟩)
      = (self,
          [LvCall.lv_dropdown_set_options w (String.intercalate "\n" (keys.map tr))]) := by
  unfold translate_select
  simp only [h]
  exact refresh_dropdown_options_of_find tr self w keys h

/-! ## The `std::map` invariant is kept by every operation -/

theorem wellFormed_init : I18nHelper.init.WellFormed := by
  decide

theorem refresh_dropdown_options_self (tr : String → String) (self : I18nHelper)
    (obj : lv_obj_ptr) : (refresh_dropdown_options tr self obj).1 = self := by
  cases hfind : self.registry_dropdown.find obj with
  | none => rw [refresh_dropdown_options_of_find_none tr self obj hfind]
  | some keys => rw [refresh_dropdown_options_of_find tr self obj keys hfind]

theorem translate_label_wellFormed (tr : String → String) (self : I18nHelper)
    (obj : lv_obj_ptr) (key : String) (h : self.WellFormed) :
    (translate_label tr self obj key).1.WellFormed := by
  refine ⟨translate_label_ascending tr self obj key h.1, ?_⟩
  rw [(translate_label_registry tr self obj key).2]
  exact h.2

theorem translate_select_wellFormed (tr : String → String)
    (lv_dropdown_get_options : lv_obj_ptr → Option String) (self : I18nHelper)
    (dropdown : Option LvDropdownType) (h : self.WellFormed) :
    (translate_select tr lv_dropdown_get_options self dropdown).1.WellFormed := by
  cases dropdown with
  | none => exact h
  | some d =>
    obtain ⟨w⟩ := d
    cases hfind : self.registry_dropdown.find w with
    | some keys => rw [translate_select_known tr _ self w keys hfind]; exact h
    | none =>
      cases hraw : lv_dropdown_get_options w with
      | none =>
        have : translate_select tr lv_dropdown_get_options self (some ⟨w⟩) = (self, []) := by
          unfold translate_select
          simp only [hfind, if_true, hraw]
        rw [this]
        exact h
      | some raw_opts =>
        rw [translate_select_first tr _ self w raw_opts hfind hraw]
        exact ⟨h.1, StdMap.ascending_assign _ _ _ h.2⟩

theorem on_widget_delete_wellFormed (self after : I18nHelper) (obj : lv_obj_ptr)
    (h : self.WellFormed) (hafter : on_widget_delete ⟨some self, obj⟩ = some after) :
    after.WellFormed := by
  have : after = ⟨self.registry_label.erase obj, self.registry_dropdown.erase obj⟩ :=
    (Option.some.inj hafter).symm
  rw [this]
  exact ⟨StdMap.ascending_erase _ _ h.1, StdMap.ascending_erase _ _ h.2⟩

/-! ## Facts about the parser -/

theorem getline_loop_pop (fuel : Nat) (c : Char) (input : List Char) (keys : List String) :
    getline_loop (fuel + 1) (c :: input) keys
      = getline_loop fuel (((c :: input).dropWhile (fun c => c != '\n')).drop 1)
          (keys ++ [String.mk (pop_back_cr ((c :: input).takeWhile (fun c => c != '\n')))]) := by
  rfl

theorem getline_loop_nil (fuel : Nat) (keys : List String) :
    getline_loop fuel [] keys = keys := by
  cases fuel <;> rfl

theorem length_rest_lt (input : List Char) (h : input ≠ []) :
    ((input.dropWhile (fun c => c != '\n')).drop 1).length < input.length := by
  cases input with
  | nil => exact absurd rfl h
  | cons c rest =>
    by_cases hc : c = '\n'
    · subst hc
      simp [List.dropWhile]
    · have hc' : (c != '\n') = true := by simpa using hc
      have h1 : (rest.dropWhile (fun c => c != '\n')).length ≤ rest.length :=
        List.Sublist.length_le (List.dropWhile_sublist _)
      rw [List.dropWhile_cons, if_pos hc', List.length_drop, List.length_cons]
      omega

/-- The keys already read are kept in front of the keys still to be read. -/
theorem getline_loop_acc (fuel : Nat) :
    ∀ (input : List Char) (keys : List String),
      getline_loop fuel input keys = keys ++ getline_loop fuel input [] := by
  induction fuel with
  | zero => intro input keys; simp [getline_loop]
  | succ fuel ih =>
    intro input keys
    cases input with
    | nil => simp [getline_loop_nil]
    | cons c rest =>
      rw [getline_loop_pop, getline_loop_pop, ih _ (keys ++ _), ih _ ([] ++ _)]
      simp

/-- The parser loop never stops for lack of iterations: any bound above the
number of unread characters gives the same keys. -/
theorem getline_loop_fuel :
    ∀ (fuel1 fuel2 : Nat) (input : List Char) (keys : List String),
      input.length < fuel1 → input.length < fuel2 →
      getline_loop fuel1 input keys = getline_loop fuel2 input keys := by
  intro fuel1
  induction fuel1 with
  | zero => intro fuel2 input keys h; omega
  | succ fuel1 ih =>
    intro fuel2 input keys h1 h2
    cases fuel2 with
    | zero => omega
    | succ fuel2 =>
      cases input with
      | nil => simp [getline_loop_nil]
      | cons c rest =>
        rw [getline_loop_pop, getline_loop_pop]
        have hlt := length_rest_lt (c :: rest) (by simp)
        exact ih fuel2 _ _ (by omega) (by omega)

/-- Where the first newline of a text is: either there is none, or the text is
the first token, a newline, and the characters left unread. -/
theorem takeWhile_dropWhile_newline (input : List Char) :
    '\n' ∉ input.takeWhile (fun c => c != '\n') ∧
    ((input.dropWhile (fun c => c != '\n') = [] ∧
        input.takeWhile (fun c => c != '\n') = input) ∨
      input = input.takeWhile (fun c => c != '\n')
        ++ '\n' :: (input.dropWhile (fun c => c != '\n')).drop 1) := by
  induction input with
  | nil => simp
  | cons c rest ih =>
    by_cases hc : c = '\n'
    · subst hc
      simp [List.takeWhile, List.dropWhile]
    · obtain ⟨ih1, ih2⟩ := ih
      have hc' : (c != '\n') = true := by simpa using hc
      simp only [List.takeWhile, List.dropWhile, hc']
      refine ⟨?_, ?_⟩
      · intro hmem
        rcases List.mem_cons.mp hmem with h | h
        · exact hc h.symm
        · exact ih1 h
      · rcases ih2 with ⟨h1, h2⟩ | h
        · left
          exact ⟨h1, by rw [h2]⟩
        · right
          simp only [List.cons_append]
          exact congrArg (List.cons c) h

theorem pop_back_cr_cons_cons (c c2 : Char) (t : List Char) :
    pop_back_cr (c :: c2 :: t) = c :: pop_back_cr (c2 :: t) := by
  unfold pop_back_cr
  simp only [ne_eq, reduceCtorEq, not_false_eq_true, true_and, List.getLast?_cons_cons]
  by_cases h : (c2 :: t).getLast? = some '\r'
  · simp [h, List.dropLast]
  · simp [h]

theorem strip_line_cr_token (token : List Char) (h : '\n' ∉ token) :
    strip_line_cr token = pop_back_cr token := by
  induction token with
  | nil => simp [strip_line_cr, pop_back_cr]
  | cons c rest ih =>
    cases rest with
    | nil =>
      by_cases hc : c = '\r'
      · subst hc
        simp [strip_line_cr, pop_back_cr]
      · simp [strip_line_cr, pop_back_cr, hc]
    | cons c2 t =>
      have hc2 : c2 ≠ '\n' := fun h2 => h (by simp [h2])
      have hrest : '\n' ∉ c2 :: t := fun h2 => h (List.mem_cons_of_mem _ h2)
      rw [pop_back_cr_cons_cons, ← ih hrest]
      simp [strip_line_cr, hc2]

theorem strip_line_cr_token_newline (token rest : List Char) (h : '\n' ∉ token) :
    strip_line_cr (token ++ '\n' :: rest) = pop_back_cr token ++ '\n' :: strip_line_cr rest := by
  induction token with
  | nil => simp [strip_line_cr, pop_back_cr]
  | cons c t ih =>
    cases t with
    | nil =>
      by_cases hc : c = '\r'
      · subst hc
        simp [strip_line_cr, pop_back_cr]
      · simp [strip_line_cr, pop_back_cr, hc]
    | cons c2 t =>
      have hc2 : c2 ≠ '\n' := fun h2 => h (by simp [h2])
      have hrest : '\n' ∉ c2 :: t := fun h2 => h (List.mem_cons_of_mem _ h2)
      rw [pop_back_cr_cons_cons]
      have ih' := ih hrest
      simp only [List.cons_append] at ih' ⊢
      rw [← ih']
      simp [strip_line_cr, hc2]

theorem drop_final_newline_of_not_mem (s : List Char) (h : '\n' ∉ s) :
    drop_final_newline s = s := by
  unfold drop_final_newline
  have : s.getLast? ≠ some '\n' := fun h2 => h (List.mem_of_getLast?_eq_some h2)
  simp [this]

theorem drop_final_newline_append_newline (token : List Char) :
    drop_final_newline (token ++ ['\n']) = token := by
  unfold drop_final_newline
  simp

theorem drop_final_newline_append_cons (token rest : List Char) (h : rest ≠ []) :
    drop_final_newline (token ++ '\n' :: rest)
      = token ++ '\n' :: drop_final_newline rest := by
  unfold drop_final_newline
  obtain ⟨c, t, rfl⟩ := List.exists_cons_of_ne_nil h
  have h1 : (token ++ '\n' :: c :: t).getLast? = (c :: t).getLast? := by
    rw [List.getLast?_append, List.getLast?_cons_cons,
      List.getLast?_eq_getLast (c :: t) (by simp)]
    rfl
  rw [h1]
  by_cases h2 : (c :: t).getLast? = some '\n'
  · simp only [h2, if_true]
    rw [List.dropLast_append_of_ne_nil _ (by simp)]
    simp [List.dropLast]
  · simp only [h2, if_false]

theorem intercalate_data_cons_cons (a b : String) (l : List String) :
    (String.intercalate "\n" (a :: b :: l)).data
      = a.data ++ '\n' :: (String.intercalate "\n" (b :: l)).data := by
  rw [intercalate_cons_cons]
  simp [String.data_append]

/-- Joining the keys read from a text gives the text without its final newline
and without the trailing carriage return of each line. -/
theorem intercalate_getline_loop :
    ∀ (n : Nat) (input : List Char), input.length ≤ n →
      ∀ fuel : Nat, input.length < fuel →
        (String.intercalate "\n" (getline_loop fuel input [])).data
          = strip_line_cr (drop_final_newline input) := by
  intro n
  induction n with
  | zero =>
    intro input hlen fuel _
    have : input = [] := List.length_eq_zero.mp (Nat.le_zero.mp hlen)
    subst this
    simp [getline_loop_nil, String.intercalate, drop_final_newline, strip_line_cr]
  | succ n ih =>
    intro input hlen fuel hfuel
    cases input with
    | nil => simp [getline_loop_nil, String.intercalate, drop_final_newline, strip_line_cr]
    | cons c rest =>
      cases fuel with
      | zero => omega
      | succ fuel =>
        have hlt := length_rest_lt (c :: rest) (by simp)
        obtain ⟨hnl, hcase⟩ := takeWhile_dropWhile_newline (c :: rest)
        rw [getline_loop_pop, getline_loop_acc]
        simp only [List.nil_append, List.singleton_append]
        generalize htok : (c :: rest).takeWhile (fun c => c != '\n') = token at *
        generalize hrem : ((c :: rest).dropWhile (fun c => c != '\n')).drop 1 = unread at *
        have hih := ih unread (by simp only [List.length_cons] at hlt hlen; omega) fuel
          (by simp only [List.length_cons] at hlt hfuel; omega)
        cases hunread : unread with
        | nil =>
          rw [getline_loop_nil, intercalate_singleton]
          show pop_back_cr token = _
          rcases hcase with ⟨_, h2⟩ | h2
          · rw [← h2, drop_final_newline_of_not_mem _ hnl, strip_line_cr_token _ hnl]
          · rw [h2, hunread, drop_final_newline_append_newline, strip_line_cr_token _ hnl]
        | cons c2 t =>
          rcases hcase with ⟨h1, _⟩ | h2
          · rw [h1] at hrem
            simp at hrem
            rw [hrem] at hunread
            cases hunread
          · rw [hunread] at hih
            cases fuel with
            | zero => simp only [List.length_cons] at hlt hfuel; rw [hunread] at hlt; simp at hlt; omega
            | succ fuel =>
              rw [getline_loop_pop, getline_loop_acc] at hih ⊢
              simp only [List.nil_append, List.singleton_append] at hih ⊢
              rw [intercalate_data_cons_cons, hih, h2, hunread,
                drop_final_newline_append_cons _ _ (by simp),
                strip_line_cr_token_newline _ _ hnl]

theorem split_join_eq_intercalate (s : String) :
    split_join s = String.intercalate "\n" (split_options s) := by
  unfold split_join
  rw [refresh_loop_eq _ _ _ 0 "" (by omega) (by omega)]
  simp

theorem split_join_data (s : String) :
    (split_join s).data = strip_line_cr (drop_final_newline s.data) := by
  rw [split_join_eq_intercalate]
  unfold split_options
  exact intercalate_getline_loop s.data.length s.data (le_refl _) _ (by omega)

theorem strip_line_cr_of_no_cr (s : List Char) (h : '\r' ∉ s) : strip_line_cr s = s := by
  induction s with
  | nil => rfl
  | cons c rest ih =>
    have hc : c ≠ '\r' := fun h2 => h (by simp [h2])
    have hrest : '\r' ∉ rest := fun h2 => h (List.mem_cons_of_mem _ h2)
    simp [strip_line_cr, hc, ih hrest]

/-! ## Facts about repeated binding -/

theorem translate_label_calls_made (tr : String → String) (self : I18nHelper)
    (w : lv_obj_ptr) (key : String) :
    (translate_label tr self w key).2.1
      = if self.registry_label.find w = none then [LvCall.lv_obj_add_event_cb w] else [] := by
  unfold translate_label
  by_cases h : self.registry_label.find w = none
  · simp [h]
  · simp [h]

theorem translate_label_calls_bound (tr : String → String) (w : lv_obj_ptr)
    (keys : List String) :
    ∀ self : I18nHelper, self.registry_label.find w ≠ none →
      (translate_label_calls tr self w keys).2 = [] := by
  induction keys with
  | nil => intro self _; rfl
  | cons key rest ih =>
    intro self h
    unfold translate_label_calls
    have hnext : (translate_label tr self w key).1.registry_label.find w ≠ none := by
      rw [translate_label_find]
      simp
    rw [ih _ hnext, translate_label_calls_made]
    simp [h]

theorem translate_select_calls_bound (tr : String → String) (w : lv_obj_ptr)
    (raws : List String) :
    ∀ self : I18nHelper, self.registry_dropdown.find w ≠ none →
      (translate_select_calls tr self w raws).2.count (LvCall.lv_obj_add_event_cb w) = 0 := by
  induction raws with
  | nil => intro self _; rfl
  | cons raw_opts rest ih =>
    intro self h
    obtain ⟨keys, hkeys⟩ := Option.ne_none_iff_exists'.mp h
    unfold translate_select_calls
    rw [translate_select_known tr _ self w keys hkeys]
    simp only [List.count_append, ih self h]
    simp

/-! ## The parser, line by line -/

theorem getline_loop_step (fuel : Nat) (input : List Char) (keys : List String)
    (h : input ≠ []) :
    getline_loop (fuel + 1) input keys
      = getline_loop fuel ((input.dropWhile (fun c => c != '\n')).drop 1)
          (keys ++ [String.mk (pop_back_cr (input.takeWhile (fun c => c != '\n')))]) := by
  cases input with
  | nil => exact absurd rfl h
  | cons c rest => exact getline_loop_pop fuel c rest keys

theorem takeWhile_token_newline (token rest : List Char) (h : '\n' ∉ token) :
    (token ++ '\n' :: rest).takeWhile (fun c => c != '\n') = token ∧
      ((token ++ '\n' :: rest).dropWhile (fun c => c != '\n')).drop 1 = rest := by
  induction token with
  | nil => simp [List.takeWhile, List.dropWhile]
  | cons c t ih =>
    have hc : c ≠ '\n' := fun h2 => h (by simp [h2])
    have hc' : (c != '\n') = true := by simpa using hc
    have ht : '\n' ∉ t := fun h2 => h (List.mem_cons_of_mem _ h2)
    obtain ⟨ih1, ih2⟩ := ih ht
    rw [List.cons_append, List.takeWhile_cons, List.dropWhile_cons, if_pos hc', if_pos hc']
    exact ⟨by rw [ih1], ih2⟩

theorem takeWhile_token (token : List Char) (h : '\n' ∉ token) :
    token.takeWhile (fun c => c != '\n') = token ∧
      token.dropWhile (fun c => c != '\n') = [] := by
  induction token with
  | nil => simp
  | cons c t ih =>
    have hc : c ≠ '\n' := fun h2 => h (by simp [h2])
    have hc' : (c != '\n') = true := by simpa using hc
    have ht : '\n' ∉ t := fun h2 => h (List.mem_cons_of_mem _ h2)
    obtain ⟨ih1, ih2⟩ := ih ht
    rw [List.takeWhile_cons, List.dropWhile_cons, if_pos hc', if_pos hc']
    exact ⟨by rw [ih1], ih2⟩

theorem split_options_nil : split_options (String.mk []) = [] := by
  rfl

/-- A text without newline that is not empty is read as one key. -/
theorem split_options_token (token : List Char) (hne : token ≠ []) (h : '\n' ∉ token) :
    split_options (String.mk token) = [String.mk (pop_back_cr token)] := by
  unfold split_options
  simp only
  rw [getline_loop_step _ _ _ hne, (takeWhile_token token h).1, (takeWhile_token token h).2]
  simp [getline_loop_nil]

/-- A text with a newline is read as the key before the first newline, followed
by the keys of the text after it. -/
theorem split_options_token_newline (token rest : List Char) (h : '\n' ∉ token) :
    split_options (String.mk (token ++ '\n' :: rest))
      = String.mk (pop_back_cr token) :: split_options (String.mk rest) := by
  unfold split_options
  simp only
  rw [getline_loop_step _ _ _ (by simp), (takeWhile_token_newline token rest h).1,
    (takeWhile_token_newline token rest h).2, getline_loop_acc]
  simp only [List.nil_append, List.singleton_append]
  rw [getline_loop_fuel _ (rest.length + 1) rest [] (by simp; omega) (by omega)]

/-- Induction over a text line by line: the empty text, a last line without
newline, and a line followed by a newline and the rest of the text. -/
theorem newline_induction (P : List Char → Prop) (hnil : P [])
    (hlast : ∀ token, token ≠ [] → '\n' ∉ token → P token)
    (hline : ∀ token rest, '\n' ∉ token → P rest → P (token ++ '\n' :: rest)) :
    ∀ s, P s := by
  have key : ∀ (n : Nat) (s : List Char), s.length ≤ n → P s := by
    intro n
    induction n with
    | zero =>
      intro s hs
      have : s = [] := List.length_eq_zero.mp (Nat.le_zero.mp hs)
      rw [this]
      exact hnil
    | succ n ih =>
      intro s hs
      by_cases hne : s = []
      · rw [hne]
        exact hnil
      · obtain ⟨hnl, hcase⟩ := takeWhile_dropWhile_newline s
        have hlt := length_rest_lt s hne
        rcases hcase with ⟨_, h2⟩ | h2
        · rw [h2] at hnl
          exact hlast s hne hnl
        · rw [h2]
          exact hline _ _ hnl (ih _ (by omega))
  exact fun s => key s.length s (le_refl _)

theorem pop_back_cr_of_not_cr (token : List Char) (h : token.getLast? ≠ some '\r') :
    pop_back_cr token = token := by
  unfold pop_back_cr
  simp [h]

theorem pop_back_cr_append_cr (token : List Char) : pop_back_cr (token ++ ['\r']) = token := by
  unfold pop_back_cr
  simp

theorem mem_of_mem_pop_back_cr (token : List Char) (c : Char) (h : c ∈ pop_back_cr token) :
    c ∈ token := by
  unfold pop_back_cr at h
  by_cases h1 : token ≠ [] ∧ token.getLast? = some '\r'
  · rw [if_pos h1] at h
    exact List.mem_of_mem_dropLast h
  · rw [if_neg h1] at h
    exact h

theorem key_of_line_pop_back_cr (line : List Char) :
    key_of_line (String.mk (pop_back_cr line)) line := by
  constructor
  · intro h
    have hne : line ≠ [] := by
      intro h2
      rw [h2] at h
      simp at h
    unfold pop_back_cr
    simp only [ne_eq, hne, not_false_eq_true, h, and_self, if_true]
    have h3 := List.dropLast_append_getLast hne
    have h4 : line.getLast hne = '\r' := by
      rw [List.getLast?_eq_getLast line hne] at h
      exact Option.some.inj h
    rw [h4] at h3
    exact h3
  · intro h
    rw [pop_back_cr_of_not_cr line h]

theorem getLast?_token_newline (token rest : List Char) :
    (token ++ '\n' :: rest).getLast? = if rest = [] then some '\n' else rest.getLast? := by
  by_cases h : rest = []
  · subst h
    simp
  · obtain ⟨c, t, rfl⟩ := List.exists_cons_of_ne_nil h
    rw [List.getLast?_append, List.getLast?_cons_cons,
      List.getLast?_eq_getLast (c :: t) (by simp)]
    simp

theorem key_lines_nil : key_lines [] = [] := by
  rfl

theorem key_lines_token (token : List Char) (hne : token ≠ []) (h : '\n' ∉ token) :
    key_lines token = [token] := by
  have hsplit : token.splitOn '\n' = [token] := by
    unfold List.splitOn
    apply List.splitOnP_eq_single
    intro x hx hp
    have : x = '\n' := by simpa using hp
    exact h (this ▸ hx)
  unfold key_lines
  rw [hsplit]
  simp [hne]

theorem key_lines_token_newline (token rest : List Char) (h : '\n' ∉ token) :
    key_lines (token ++ '\n' :: rest) = token :: key_lines rest := by
  have hsplit : (token ++ '\n' :: rest).splitOn '\n' = token :: rest.splitOn '\n' := by
    unfold List.splitOn
    apply List.splitOnP_first
    · intro x hx hp
      have : x = '\n' := by simpa using hp
      exact h (this ▸ hx)
    · simp
  have hne : rest.splitOn '\n' ≠ [] := List.splitOnP_ne_nil _ _
  obtain ⟨piece, pieces, hpieces⟩ := List.exists_cons_of_ne_nil hne
  unfold key_lines
  rw [hsplit, hpieces, List.getLast?_cons_cons]
  by_cases h2 : (piece :: pieces).getLast? = some []
  · simp [h2, List.dropLast]
  · simp [h2]

/-- The keys read from a text are its lines, each without one trailing carriage
return. -/
theorem split_options_eq_key_lines :
    ∀ s : List Char,
      split_options (String.mk s)
        = (key_lines s).map (fun line => String.mk (pop_back_cr line)) := by
  apply newline_induction
  · rfl
  · intro token hne h
    rw [split_options_token token hne h, key_lines_token token hne h]
    rfl
  · intro token rest h ih
    rw [split_options_token_newline token rest h, key_lines_token_newline token rest h, ih]
    rfl

theorem join_endings_lf (keys : List String) :
    ∀ i, join_endings (fun _ => false) i keys = String.intercalate "\n" keys := by
  induction keys with
  | nil => intro i; rfl
  | cons key rest ih =>
    intro i
    cases rest with
    | nil => rw [intercalate_singleton]; rfl
    | cons next rest =>
      rw [intercalate_cons_cons, ← ih (i + 1)]
      rfl

theorem join_endings_crlf (keys : List String) :
    ∀ i, join_endings (fun _ => true) i keys = String.intercalate "\r\n" keys := by
  induction keys with
  | nil => intro i; rfl
  | cons key rest ih =>
    intro i
    cases rest with
    | nil => rw [intercalate_singleton]; rfl
    | cons next rest =>
      rw [intercalate_cons_cons, ← ih (i + 1)]
      rfl

theorem split_options_join_endings (keys : List String)
    (h : ∀ key ∈ keys, '\n' ∉ key.data ∧ key.data.getLast? ≠ some '\r') :
    ∀ (crlf1 crlf2 : Nat → Bool) (i j : Nat),
      split_options (join_endings crlf1 i keys) = split_options (join_endings crlf2 j keys) := by
  induction keys with
  | nil => intro _ _ _ _; rfl
  | cons key rest ih =>
    intro crlf1 crlf2 i j
    cases rest with
    | nil => rfl
    | cons next rest =>
      obtain ⟨hnl, hcr⟩ := h key (List.mem_cons_self _ _)
      have ih' := ih (fun k hk => h k (List.mem_cons_of_mem _ hk))
      have hstep : ∀ (crlf : Nat → Bool) (n : Nat),
          split_options (join_endings crlf n (key :: next :: rest))
            = key :: split_options (join_endings crlf (n + 1) (next :: rest)) := by
        intro crlf n
        have hcons : join_endings crlf n (key :: next :: rest)
            = key ++ (if crlf n then "\r\n" else "\n")
                ++ join_endings crlf (n + 1) (next :: rest) := rfl
        cases hc : crlf n with
        | true =>
          have hdata : join_endings crlf n (key :: next :: rest)
              = String.mk ((key.data ++ ['\r'])
                  ++ '\n' :: (join_endings crlf (n + 1) (next :: rest)).data) := by
            apply String.ext
            rw [hcons, hc]
            simp [String.data_append]
          rw [hdata, split_options_token_newline _ _ (by simp [hnl]), pop_back_cr_append_cr]
        | false =>
          have hdata : join_endings crlf n (key :: next :: rest)
              = String.mk (key.data
                  ++ '\n' :: (join_endings crlf (n + 1) (next :: rest)).data) := by
            apply String.ext
            rw [hcons, hc]
            simp [String.data_append]
          rw [hdata, split_options_token_newline _ _ hnl, pop_back_cr_of_not_cr _ hcr]
      rw [hstep crlf1 i, hstep crlf2 j, ih' crlf1 crlf2 (i + 1) (j + 1)]

/-! ## Registered callbacks and bound widgets -/

theorem registrations_append (a b : List LvCall) :
    registrations (a ++ b) = registrations a ++ registrations b := by
  induction a with
  | nil => rfl
  | cons c rest ih =>
    cases c with
    | lv_obj_add_event_cb obj => simp [registrations, ih]
    | lv_label_set_text obj text => simp [registrations, ih]
    | lv_dropdown_set_options obj options => simp [registrations, ih]

theorem registrations_map_label {α : Type} (l : List α) (f : α → lv_obj_ptr)
    (g : α → String) :
    registrations (l.map (fun e => LvCall.lv_label_set_text (f e) (g e))) = [] := by
  induction l with
  | nil => rfl
  | cons e rest ih => simp [registrations, ih]

theorem registrations_map_dropdown_write (tr : String → String) (self : I18nHelper)
    (l : List (lv_obj_ptr × List String)) :
    registrations (l.map (dropdown_write tr self)) = [] := by
  induction l with
  | nil => rfl
  | cons e rest ih => simp [registrations, dropdown_write, ih]

theorem registrations_update_translations (tr : String → String) (self : I18nHelper) :
    registrations (update_translations tr self).2 = [] := by
  rw [update_translations_eq, registrations_append, registrations_map_label,
    registrations_map_dropdown_write]
  rfl

theorem registrations_refresh_dropdown_options (tr : String → String) (self : I18nHelper)
    (obj : lv_obj_ptr) : registrations (refresh_dropdown_options tr self obj).2 = [] := by
  cases hfind : self.registry_dropdown.find obj with
  | none => rw [refresh_dropdown_options_of_find_none tr self obj hfind]; rfl
  | some keys => rw [refresh_dropdown_options_of_find tr self obj keys hfind]; rfl

theorem translate_label_find_ne (tr : String → String) (self : I18nHelper)
    (obj v : lv_obj_ptr) (key : String) (hv : v ≠ obj) :
    (translate_label tr self obj key).1.registry_label.find v = self.registry_label.find v := by
  rw [(translate_label_registry tr self obj key).1]
  by_cases h : self.registry_label.find obj = none
  · simp only [h, if_true]
    rw [StdMap.find_assign_ne _ _ _ _ hv, StdMap.find_assign_ne _ _ _ _ hv]
  · simp only [h, if_false]
    rw [StdMap.find_assign_ne _ _ _ _ hv]

/-- `translate_label` registers a callback on a widget exactly when it gives the
widget its first entry in the label map. -/
theorem translate_label_count (tr : String → String) (self : I18nHelper)
    (obj : lv_obj_ptr) (key : String) (w : lv_obj_ptr) :
    (registrations (translate_label tr self obj key).2.1).count w + bindings_of self w
      = bindings_of (translate_label tr self obj key).1 w := by
  unfold bindings_of
  rw [(translate_label_registry tr self obj key).2, translate_label_calls_made]
  by_cases hw : w = obj
  · subst hw
    rw [translate_label_find]
    by_cases h : self.registry_label.find w = none
    · simp [h, registrations]
    · simp [h, registrations]
  · rw [translate_label_find_ne tr self obj w key hw]
    have hc : List.count w [obj] = 0 := List.count_eq_zero_of_not_mem (by simp [hw])
    by_cases h : self.registry_label.find obj = none
    · simp [h, registrations, hc]
    · simp [h, registrations]

/-- `translate_select` registers a callback on a widget exactly when it gives the
widget its entry in the dropdown map. -/
theorem translate_select_count (tr : String → String)
    (lv_dropdown_get_options : lv_obj_ptr → Option String) (self : I18nHelper)
    (dropdown : Option LvDropdownType) (w : lv_obj_ptr) :
    (registrations (translate_select tr lv_dropdown_get_options self dropdown).2).count w
        + bindings_of self w
      = bindings_of (translate_select tr lv_dropdown_get_options self dropdown).1 w := by
  cases dropdown with
  | none => simp [translate_select, registrations]
  | some d =>
    obtain ⟨obj⟩ := d
    cases hfind : self.registry_dropdown.find obj with
    | some keys =>
      rw [translate_select_known tr _ self obj keys hfind]
      simp [registrations]
    | none =>
      cases hraw : lv_dropdown_get_options obj with
      | none =>
        have : translate_select tr lv_dropdown_get_options self (some ⟨obj⟩) = (self, []) := by
          unfold translate_select
          simp only [hfind, if_true, hraw]
        rw [this]
        simp [registrations]
      | some raw_opts =>
        rw [translate_select_first tr _ self obj raw_opts hfind hraw]
        unfold bindings_of
        simp only [registrations]
        by_cases hw : w = obj
        · subst hw
          rw [StdMap.find_assign_self, hfind]
          simp
          omega
        · rw [StdMap.find_assign_ne _ _ _ _ hw]
          have hc : List.count w [obj] = 0 := List.count_eq_zero_of_not_mem (by simp [hw])
          simp [hc]

theorem deliver_delete_succ (obj : lv_obj_ptr) (n : Nat) :
    ∀ helper : I18nHelper,
      deliver_delete helper obj (n + 1)
        = ⟨helper.registry_label.erase obj, helper.registry_dropdown.erase obj⟩ := by
  induction n with
  | zero => intro helper; rfl
  | succ n ih =>
    intro helper
    have hstep : deliver_delete helper obj (n + 1 + 1)
        = deliver_delete ⟨helper.registry_label.erase obj, helper.registry_dropdown.erase obj⟩
            obj (n + 1) := rfl
    rw [hstep, ih]
    simp only
    rw [StdMap.erase_of_find_none _ obj (StdMap.find_erase_self helper.registry_label obj),
      StdMap.erase_of_find_none _ obj (StdMap.find_erase_self helper.registry_dropdown obj)]

theorem counted_init : Counted World.init := by
  intro w
  rfl

theorem counted_step (tr : String → String) (world : World) (op : Op) (h : Counted world) :
    Counted (world.step tr op) := by
  intro w
  cases op with
  | translate_label obj key =>
    show (world.event_cbs ++ _).count w = _
    rw [List.count_append, h w, Nat.add_comm]
    exact translate_label_count tr world.helper obj key w
  | translate_select dropdown raw_opts =>
    show (world.event_cbs ++ _).count w = _
    rw [List.count_append, h w, Nat.add_comm]
    exact translate_select_count tr _ world.helper dropdown w
  | refresh_dropdown_options obj =>
    show (world.event_cbs ++ _).count w = bindings_of (refresh_dropdown_options tr _ obj).1 w
    rw [registrations_refresh_dropdown_options, refresh_dropdown_options_self, List.append_nil]
    exact h w
  | update_translations =>
    show (world.event_cbs ++ _).count w = bindings_of (update_translations tr _).1 w
    rw [registrations_update_translations, update_translations_eq, List.append_nil]
    exact h w
  | teardown obj =>
    show (world.event_cbs.filter (fun o => decide (o ≠ obj))).count w
      = bindings_of (deliver_delete world.helper obj (world.event_cbs.count obj)) w
    by_cases hw : w = obj
    · subst hw
      have hzero : (world.event_cbs.filter (fun o => decide (o ≠ w))).count w = 0 := by
        apply List.count_eq_zero_of_not_mem
        intro hmem
        have := (List.mem_filter.mp hmem).2
        simp at this
      rw [hzero]
      cases hn : world.event_cbs.count w with
      | zero =>
        have := h w
        rw [hn] at this
        exact this
      | succ n =>
        rw [deliver_delete_succ]
        unfold bindings_of
        simp [StdMap.find_erase_self]
    · have hkeep : (world.event_cbs.filter (fun o => decide (o ≠ obj))).count w
          = world.event_cbs.count w := by
        apply List.count_filter
        simpa using hw
      rw [hkeep, h w]
      cases hn : world.event_cbs.count obj with
      | zero => rfl
      | succ n =>
        rw [deliver_delete_succ]
        unfold bindings_of
        simp only [StdMap.find_erase_ne _ _ _ hw]

theorem counted_run (steps : List ((String → String) × Op)) :
    ∀ world : World, Counted world → Counted (world.run steps) := by
  induction steps with
  | nil => intro world h; exact h
  | cons step rest ih =>
    intro world h
    exact ih _ (counted_step step.1 world step.2 h)

theorem bindings_of_le_two (self : I18nHelper) (w : lv_obj_ptr) : bindings_of self w ≤ 2 := by
  unfold bindings_of
  split <;> split <;> omega

/-! ## Counting the writes of a refresh, and the reads of its loop -/

theorem count_keys_of_ascending {β : Type} [DecidableEq β] (m : StdMap β) (h : m.Ascending) (w : lv_obj_ptr) :
    m.keys.count w = if m.find w = none then 0 else 1 := by
  obtain ⟨l⟩ := m
  unfold StdMap.Ascending StdMap.keys at h
  unfold StdMap.keys StdMap.find
  simp only at h ⊢
  induction l with
  | nil => simp [StdMap.findEntries]
  | cons e rest ih =>
    obtain ⟨k', v'⟩ := e
    have hcons : (k' :: rest.map Prod.fst).Pairwise (· < ·) := h
    rw [List.pairwise_cons] at hcons
    obtain ⟨hhead, htail⟩ := hcons
    by_cases hk : k' = w
    · subst hk
      have hnot : k' ∉ rest.map Prod.fst := fun hmem => Nat.lt_irrefl _ (hhead k' hmem)
      simp [StdMap.findEntries, List.count_eq_zero_of_not_mem hnot]
    · have hk' : (k' == w) = false := by simpa using hk
      simp only [List.map_cons, List.count_cons, hk', StdMap.findEntries, hk, if_false]
      simpa using ih htail

theorem countP_target_map {α : Type} (l : List α) (f : α → LvCall) (key : α → lv_obj_ptr)
    (hf : ∀ e, (f e).target = key e) (w : lv_obj_ptr) :
    (l.map f).countP (fun c => decide (c.target = w)) = (l.map key).count w := by
  induction l with
  | nil => rfl
  | cons e rest ih =>
    by_cases h : key e = w
    · simp [List.countP_cons, List.count_cons, hf, h, ih]
    · simp [List.countP_cons, List.count_cons, hf, h, ih]

/-- The number of calls of `update_translations` that act on a widget: one for
each map that holds it. -/
theorem countP_update_translations (tr : String → String) (self : I18nHelper)
    (hwf : self.WellFormed) (w : lv_obj_ptr) :
    (update_translations tr self).2.countP (fun c => decide (c.target = w))
      = bindings_of self w := by
  rw [update_translations_eq]
  simp only [List.countP_append]
  rw [countP_target_map self.registry_label.entries
      (fun e => LvCall.lv_label_set_text e.1 (tr e.2)) Prod.fst (fun _ => rfl),
    countP_target_map self.registry_dropdown.entries (dropdown_write tr self) Prod.fst
      (fun _ => rfl)]
  have h1 := count_keys_of_ascending self.registry_label hwf.1 w
  have h2 := count_keys_of_ascending self.registry_dropdown hwf.2 w
  unfold StdMap.keys at h1 h2
  rw [h1, h2]
  rfl

theorem countP_map_of_key {α : Type} (l : List α) (f : α → LvCall) (key : α → lv_obj_ptr)
    (p : LvCall → Bool) (w : lv_obj_ptr) (hf : ∀ e, p (f e) = decide (key e = w)) :
    (l.map f).countP p = (l.map key).count w := by
  induction l with
  | nil => rfl
  | cons e rest ih =>
    by_cases h : key e = w
    · simp [List.countP_cons, List.count_cons, hf, h, ih]
    · simp [List.countP_cons, List.count_cons, hf, h, ih]

theorem countP_map_of_false {α : Type} (l : List α) (f : α → LvCall) (p : LvCall → Bool)
    (hf : ∀ e, p (f e) = false) : (l.map f).countP p = 0 := by
  induction l with
  | nil => rfl
  | cons e rest ih => simp [List.countP_cons, hf, ih]

/-- The label-text writes of `update_translations` to a widget: one when the label
map holds the widget, none otherwise. -/
theorem countP_label_text_update_translations (tr : String → String) (self : I18nHelper)
    (hwf : self.WellFormed) (w : lv_obj_ptr) :
    (update_translations tr self).2.countP (LvCall.isLabelTextOf w)
      = if self.registry_label.find w = none then 0 else 1 := by
  rw [update_translations_eq]
  simp only [List.countP_append]
  rw [countP_map_of_key self.registry_label.entries
      (fun e => LvCall.lv_label_set_text e.1 (tr e.2)) Prod.fst _ w (fun _ => rfl),
    countP_map_of_false self.registry_dropdown.entries (dropdown_write tr self) _
      (fun _ => rfl)]
  have h1 := count_keys_of_ascending self.registry_label hwf.1 w
  unfold StdMap.keys at h1
  rw [h1, Nat.add_zero]

/-- The option-text writes of `update_translations` to a widget: one when the
dropdown map holds the widget, none otherwise. -/
theorem countP_option_text_update_translations (tr : String → String) (self : I18nHelper)
    (hwf : self.WellFormed) (w : lv_obj_ptr) :
    (update_translations tr self).2.countP (LvCall.isOptionTextOf w)
      = if self.registry_dropdown.find w = none then 0 else 1 := by
  rw [update_translations_eq]
  simp only [List.countP_append]
  rw [countP_map_of_false self.registry_label.entries
      (fun e => LvCall.lv_label_set_text e.1 (tr e.2)) _ (fun _ => rfl),
    countP_map_of_key self.registry_dropdown.entries (dropdown_write tr self) Prod.fst _ w
      (fun _ => rfl)]
  have h2 := count_keys_of_ascending self.registry_dropdown hwf.2 w
  unfold StdMap.keys at h2
  rw [h2, Nat.zero_add]

/-- A call that occurs in a list, and is one of at most one call of its kind
there, occurs once. -/
theorem count_eq_one_of_mem (calls : List LvCall) (c : LvCall) (p : LvCall → Bool)
    (hp : p c = true) (hmem : c ∈ calls) (hone : calls.countP p ≤ 1) : calls.count c = 1 := by
  have hpos : 0 < calls.count c := List.count_pos_iff.mpr hmem
  have hle : calls.count c ≤ calls.countP p := by
    unfold List.count
    apply List.countP_mono_left
    intro x _ hx
    have : x = c := by simpa using hx
    rw [this]
    exact hp
  omega

/-- The recording loop builds the text of `refresh_loop`, reads the indices from
`i` up to the last one, and computes `keys.size() - 1` once for each of them,
always without wrap-around. -/
theorem refresh_loop_reads_eq (tr : String → String) (keys : List String) :
    ∀ (fuel i : Nat) (acc : String), i ≤ keys.length → keys.length - i < fuel →
      refresh_loop_reads tr keys fuel i acc
        = (refresh_loop tr keys fuel i acc, List.range' i (keys.length - i),
            List.replicate (keys.length - i) (keys.length - 1)) := by
  intro fuel
  induction fuel with
  | zero => intro i acc _ h; omega
  | succ fuel ih =>
    intro i acc hi hfuel
    unfold refresh_loop_reads refresh_loop
    by_cases h : i < keys.length
    · simp only [h, dif_pos]
      rw [ih (i + 1) _ (by omega) (by omega), size_t_sub_one keys.length (by omega)]
      have hlen : keys.length - i = (keys.length - (i + 1)) + 1 := by omega
      rw [hlen, List.range'_succ, List.replicate_succ]
    · simp only [h, dif_neg, not_false_eq_true]
      have hlen : keys.length - i = 0 := by omega
      rw [hlen]
      rfl

/-! ## The claims -/

/-- C1: `translate_label` (bind-single) on widget `w` with key `k` returns
`tr k` and leaves `w` bound to `k` alone; a second call with `k2` returns
`tr k2` and leaves `w` bound to `k2` alone, and `update_translations`
(refresh-all) afterwards writes to the label `w` the text `tr k2` and nothing else,
so never `tr k` when that is a different text. The label map is a `std::map`:
its keys are strictly ascending. -/
theorem translate_label_rebind (tr : String → String) (self : I18nHelper)
    (w : lv_obj_ptr) (k k2 : String) (hwf : self.registry_label.Ascending) :
    (translate_label tr self w k).2.2 = tr k ∧
    (translate_label tr self w k).1.registry_label.find w = some k ∧
    (∀ x, (w, x) ∈ (translate_label tr self w k).1.registry_label.entries → x = k) ∧
    (translate_label tr (translate_label tr self w k).1 w k2).2.2 = tr k2 ∧
    (translate_label tr (translate_label tr self w k).1 w k2).1.registry_label.find w
      = some k2 ∧
    (∀ x, (w, x) ∈
        (translate_label tr (translate_label tr self w k).1 w k2).1.registry_label.entries →
      x = k2) ∧
    (∀ t, LvCall.lv_label_set_text w t ∈
        (update_translations tr
          (translate_label tr (translate_label tr self w k).1 w k2).1).2 ↔ t = tr k2) ∧
    (tr k ≠ tr k2 → LvCall.lv_label_set_text w (tr k) ∉
        (update_translations tr
          (translate_label tr (translate_label tr self w k).1 w k2).1).2) := by
  have hasc1 := translate_label_ascending tr self w k hwf
  have hasc2 := translate_label_ascending tr (translate_label tr self w k).1 w k2 hasc1
  have hfind1 := translate_label_find tr self w k
  have hfind2 := translate_label_find tr (translate_label tr self w k).1 w k2
  have honly1 : ∀ x, (w, x) ∈ (translate_label tr self w k).1.registry_label.entries → x = k := by
    intro x hx
    have := StdMap.find_of_mem_entries _ hasc1 w x hx
    rw [hfind1] at this
    exact (Option.some.inj this).symm
  have honly2 : ∀ x, (w, x) ∈
      (translate_label tr (translate_label tr self w k).1 w k2).1.registry_label.entries →
      x = k2 := by
    intro x hx
    have := StdMap.find_of_mem_entries _ hasc2 w x hx
    rw [hfind2] at this
    exact (Option.some.inj this).symm
  have hwrites : ∀ t, LvCall.lv_label_set_text w t ∈
        (update_translations tr
          (translate_label tr (translate_label tr self w k).1 w k2).1).2 ↔ t = tr k2 := by
    intro t
    rw [label_write_mem_update_translations]
    constructor
    · rintro ⟨key, hmem, ht⟩
      rw [honly2 key hmem] at ht
      exact ht
    · intro ht
      exact ⟨k2, StdMap.mem_entries_of_find _ w k2 hfind2, ht⟩
  refine ⟨rfl, hfind1, honly1, rfl, hfind2, honly2, hwrites, ?_⟩
  intro hne hmem
  exact hne ((hwrites (tr k)).mp hmem)

/-- C1 on the empty registry: widget 7 bound to `"hello"`, then to `"bye"`. -/
theorem translate_label_rebind_witness :
    I18nHelper.init.registry_label.Ascending ∧
    (translate_label (fun s => s ++ "!") I18nHelper.init 7 "hello").2.2 = "hello!" ∧
    (∀ t, LvCall.lv_label_set_text 7 t ∈
        (update_translations (fun s => s ++ "!")
          (translate_label (fun s => s ++ "!")
            (translate_label (fun s => s ++ "!") I18nHelper.init 7 "hello").1 7 "bye").1).2
        ↔ t = "bye!") :=
  ⟨by decide,
    (translate_label_rebind (fun s => s ++ "!") I18nHelper.init 7 "hello" "bye" (by decide)).1,
    (translate_label_rebind (fun s => s ++ "!") I18nHelper.init 7 "hello" "bye"
      (by decide)).2.2.2.2.2.2.1⟩

/-- C2: for a widget `w` whose list binding is `keys`, `refresh_dropdown_options`
(refresh-one) makes exactly one toolkit call, an option-text write to `w` of the
translations of the keys in stored order joined by single newlines, with no
newline after the last; after a first `translate_select` (bind-list) on raw
options `"keyA\nkeyB\nkeyC"` that text is
`tr "keyA" ++ "\n" ++ tr "keyB" ++ "\n" ++ tr "keyC"`. -/
theorem refresh_dropdown_options_writes_join (tr : String → String) (self : I18nHelper)
    (w : lv_obj_ptr) :
    (∀ keys, self.registry_dropdown.find w = some keys →
      refresh_dropdown_options tr self w
        = (self,
            [LvCall.lv_dropdown_set_options w (String.intercalate "\n" (keys.map tr))])) ∧
    (∀ lv_dropdown_get_options : lv_obj_ptr → Option String,
      self.registry_dropdown.find w = none →
      lv_dropdown_get_options w = some "keyA\nkeyB\nkeyC" →
      (translate_select tr lv_dropdown_get_options self (some ⟨w⟩)).1.registry_dropdown.find w
          = some ["keyA", "keyB", "keyC"] ∧
        (refresh_dropdown_options tr
            (translate_select tr lv_dropdown_get_options self (some ⟨w⟩)).1 w).2
          = [LvCall.lv_dropdown_set_options w
              (tr "keyA" ++ "\n" ++ tr "keyB" ++ "\n" ++ tr "keyC")]) := by
  refine ⟨fun keys h => refresh_dropdown_options_of_find tr self w keys h, ?_⟩
  intro get hnew hraw
  have hsplit : split_options "keyA\nkeyB\nkeyC" = ["keyA", "keyB", "keyC"] := by decide
  rw [translate_select_first tr get self w _ hnew hraw, hsplit]
  have hfind : (self.registry_dropdown.assign w ["keyA", "keyB", "keyC"]).find w
      = some ["keyA", "keyB", "keyC"] := StdMap.find_assign_self _ _ _
  refine ⟨hfind, ?_⟩
  rw [refresh_dropdown_options_of_find tr _ w _ hfind]
  simp [String.intercalate, String.intercalate.go]

/-- C2 on a dropdown with keys `x`, `y`, and on the options `"keyA\nkeyB\nkeyC"`. -/
theorem refresh_dropdown_options_writes_join_witness :
    refresh_dropdown_options (fun s => s ++ "!") ⟨⟨[]⟩, ⟨[(4, ["x", "y"])]⟩⟩ 4
        = (⟨⟨[]⟩, ⟨[(4, ["x", "y"])]⟩⟩, [LvCall.lv_dropdown_set_options 4 "x!\ny!"]) ∧
      (refresh_dropdown_options (fun s => s ++ "!")
          (translate_select (fun s => s ++ "!") (fun _ => some "keyA\nkeyB\nkeyC")
            I18nHelper.init (some ⟨4⟩)).1 4).2
        = [LvCall.lv_dropdown_set_options 4 "keyA!\nkeyB!\nkeyC!"] :=
  ⟨(refresh_dropdown_options_writes_join (fun s => s ++ "!") ⟨⟨[]⟩, ⟨[(4, ["x", "y"])]⟩⟩ 4).1
      ["x", "y"] (by decide),
    ((refresh_dropdown_options_writes_join (fun s => s ++ "!") I18nHelper.init 4).2
      (fun _ => some "keyA\nkeyB\nkeyC") (by decide) rfl).2⟩

/-- C3, as stated, fails: the options `"a\n"` hold no carriage return, yet
splitting them gives the single key `"a"` and joining gives `"a"`, not `"a\n"`. -/
theorem split_join_final_newline_lost :
    split_options "a\n" = ["a"] ∧ split_join "a\n" = "a" ∧
      String.mk (strip_line_cr "a\n".data) = "a\n" ∧
      split_join "a\n" ≠ String.mk (strip_line_cr "a\n".data) := by
  decide

/-- C3 (amended): splitting a string `s` into keys as `translate_select` does and
joining them as `refresh_dropdown_options` does under the identity lookup gives
`s` without the trailing carriage return of each line and without its final
newline, when `s` ends with one. So a string that does not end with a newline is
reconstructed except for the stripped carriage returns, and exactly when it
holds no carriage return at all. -/
theorem split_join_roundtrip (s : String) :
    split_join s = String.mk (strip_line_cr (drop_final_newline s.data)) ∧
    (s.data.getLast? ≠ some '\n' → split_join s = String.mk (strip_line_cr s.data)) ∧
    (s.data.getLast? ≠ some '\n' → '\r' ∉ s.data → split_join s = s) := by
  have hdata := split_join_data s
  have h1 : split_join s = String.mk (strip_line_cr (drop_final_newline s.data)) :=
    String.ext hdata
  refine ⟨h1, ?_, ?_⟩
  · intro hlast
    rw [h1]
    unfold drop_final_newline
    simp [hlast]
  · intro hlast hcr
    rw [h1]
    unfold drop_final_newline
    simp only [hlast, if_false]
    rw [strip_line_cr_of_no_cr _ hcr]

/-- C3 (amended) on a text with carriage returns and on one without. -/
theorem split_join_roundtrip_witness :
    "k1\r\nk2\nk3\r".data.getLast? ≠ some '\n' ∧
      split_join "k1\r\nk2\nk3\r" = "k1\nk2\nk3" ∧
      split_join "k1\nk2" = "k1\nk2" :=
  ⟨by decide,
    (split_join_roundtrip "k1\r\nk2\nk3\r").2.1 (by decide),
    (split_join_roundtrip "k1\nk2").2.2 (by decide) (by decide)⟩

/-- C4, as stated, fails: on a widget with no list binding whose raw options are
the empty string, `translate_select` stores the empty key sequence, not the
sequence holding one empty key. -/
theorem translate_select_empty_options_no_key :
    split_options "" = [] ∧
      (translate_select (fun key => key) (fun _ => some "") I18nHelper.init
          (some ⟨1⟩)).1.registry_dropdown.find 1 = some [] ∧
      (translate_select (fun key => key) (fun _ => some "") I18nHelper.init
          (some ⟨1⟩)).1.registry_dropdown.find 1 ≠ some [""] := by
  decide

/-- C4 (amended): for a widget `w` with no list binding whose raw options are the
empty string, `translate_select` (bind-list) stores a list binding for `w` that
holds no key at all, registers the destroy callback and writes the empty option
text. -/
theorem translate_select_empty_options (tr : String → String)
    (lv_dropdown_get_options : lv_obj_ptr → Option String) (self : I18nHelper)
    (w : lv_obj_ptr) (hnew : self.registry_dropdown.find w = none)
    (hraw : lv_dropdown_get_options w = some "") :
    (translate_select tr lv_dropdown_get_options self (some ⟨w⟩)).1.registry_dropdown.find w
        = some [] ∧
      (translate_select tr lv_dropdown_get_options self (some ⟨w⟩)).2
        = [LvCall.lv_obj_add_event_cb w, LvCall.lv_dropdown_set_options w ""] := by
  have hsplit : split_options "" = [] := by decide
  rw [translate_select_first tr lv_dropdown_get_options self w "" hnew hraw, hsplit]
  exact ⟨StdMap.find_assign_self _ _ _, by simp [String.intercalate]⟩

/-- C4 (amended) on a registry that holds other widgets. -/
theorem translate_select_empty_options_witness :
    (⟨⟨[(2, "title")]⟩, ⟨[(5, ["a"])]⟩⟩ : I18nHelper).registry_dropdown.find 3 = none ∧
      (translate_select (fun key => key ++ "!") (fun _ => some "")
          ⟨⟨[(2, "title")]⟩, ⟨[(5, ["a"])]⟩⟩ (some ⟨3⟩)).1.registry_dropdown.find 3
        = some [] :=
  ⟨by decide,
    (translate_select_empty_options (fun key => key ++ "!") (fun _ => some "")
      ⟨⟨[(2, "title")]⟩, ⟨[(5, ["a"])]⟩⟩ 3 (by decide) rfl).1⟩

/-- C5: `translate_select` (bind-list) with a null dropdown, or on a widget with
no list binding whose raw options are null, returns with the registry exactly
as it was (no entry for the widget, not even an empty one) and makes no toolkit
call: no destroy callback is registered and no text is written. -/
theorem translate_select_null_options (tr : String → String)
    (lv_dropdown_get_options : lv_obj_ptr → Option String) (self : I18nHelper) :
    translate_select tr lv_dropdown_get_options self none = (self, []) ∧
    (∀ w, self.registry_dropdown.find w = none → lv_dropdown_get_options w = none →
      translate_select tr lv_dropdown_get_options self (some ⟨w⟩) = (self, []) ∧
      (translate_select tr lv_dropdown_get_options self (some ⟨w⟩)).1.registry_dropdown.find w
        = none) := by
  refine ⟨rfl, ?_⟩
  intro w hnew hraw
  have h : translate_select tr lv_dropdown_get_options self (some ⟨w⟩) = (self, []) := by
    unfold translate_select
    simp only [hnew, if_true, hraw]
  rw [h]
  exact ⟨rfl, hnew⟩

/-- C5 on a registry that holds other widgets. -/
theorem translate_select_null_options_witness :
    translate_select (fun key => key) (fun _ => none) ⟨⟨[(2, "title")]⟩, ⟨[(5, ["a"])]⟩⟩
        (some ⟨3⟩)
      = (⟨⟨[(2, "title")]⟩, ⟨[(5, ["a"])]⟩⟩, []) :=
  ((translate_select_null_options (fun key => key) (fun _ => none)
    ⟨⟨[(2, "title")]⟩, ⟨[(5, ["a"])]⟩⟩).2 3 (by decide) rfl).1

/-- C6: after `on_widget_delete` for widget `w` (with the registry as user
data), `w` is in neither map, `refresh_dropdown_options` on `w` does nothing, and
a second `on_widget_delete` for `w` leaves the registry exactly as it is. -/
theorem on_widget_delete_idempotent (tr : String → String) (self : I18nHelper)
    (w : lv_obj_ptr) :
    ∃ after : I18nHelper,
      on_widget_delete ⟨some self, w⟩ = some after ∧
      after.registry_label.find w = none ∧ after.registry_dropdown.find w = none ∧
      w ∉ after.registry_label.keys ∧ w ∉ after.registry_dropdown.keys ∧
      refresh_dropdown_options tr after w = (after, []) ∧
      on_widget_delete ⟨some after, w⟩ = some after := by
  refine ⟨⟨self.registry_label.erase w, self.registry_dropdown.erase w⟩, rfl, ?_, ?_, ?_, ?_,
    ?_, ?_⟩
  · exact StdMap.find_erase_self _ _
  · exact StdMap.find_erase_self _ _
  · exact (StdMap.find_eq_none_iff _ _).mp (StdMap.find_erase_self _ _)
  · exact (StdMap.find_eq_none_iff _ _).mp (StdMap.find_erase_self _ _)
  · exact refresh_dropdown_options_of_find_none tr _ w (StdMap.find_erase_self _ _)
  · show some (I18nHelper.mk _ _) = _
    rw [StdMap.erase_of_find_none _ w (StdMap.find_erase_self self.registry_label w),
      StdMap.erase_of_find_none _ w (StdMap.find_erase_self self.registry_dropdown w)]

/-- C7: `on_widget_delete` for widget `w` always returns; it removes the single
binding and the list binding of `w`, leaves both bindings of every other widget
`v` as they were, leaves a map in which `w` had no entry unchanged, and leaves
the whole registry unchanged when `w` was in neither map. -/
theorem on_widget_delete_frame (self : I18nHelper) (w v : lv_obj_ptr) (hv : v ≠ w) :
    ∃ after : I18nHelper,
      on_widget_delete ⟨some self, w⟩ = some after ∧
      after.registry_label.find w = none ∧ after.registry_dropdown.find w = none ∧
      after.registry_label.find v = self.registry_label.find v ∧
      after.registry_dropdown.find v = self.registry_dropdown.find v ∧
      (self.registry_label.find w = none → after.registry_label = self.registry_label) ∧
      (self.registry_dropdown.find w = none →
        after.registry_dropdown = self.registry_dropdown) ∧
      (self.registry_label.find w = none → self.registry_dropdown.find w = none →
        after = self) := by
  refine ⟨⟨self.registry_label.erase w, self.registry_dropdown.erase w⟩, rfl, ?_, ?_, ?_, ?_,
    ?_, ?_, ?_⟩
  · exact StdMap.find_erase_self _ _
  · exact StdMap.find_erase_self _ _
  · exact StdMap.find_erase_ne _ _ _ hv
  · exact StdMap.find_erase_ne _ _ _ hv
  · exact fun h => StdMap.erase_of_find_none _ _ h
  · exact fun h => StdMap.erase_of_find_none _ _ h
  · intro h1 h2
    show I18nHelper.mk _ _ = _
    rw [StdMap.erase_of_find_none _ _ h1, StdMap.erase_of_find_none _ _ h2]

/-- C7 for the widgets 3 (destroyed) and 5 (kept). -/
theorem on_widget_delete_frame_witness :
    (5 : lv_obj_ptr) ≠ 3 ∧
    ∃ after : I18nHelper,
      on_widget_delete ⟨some ⟨⟨[(3, "a"), (5, "b")]⟩, ⟨[(5, ["y", "x"])]⟩⟩, 3⟩ = some after ∧
      after.registry_label.find 3 = none ∧ after.registry_dropdown.find 3 = none ∧
      after.registry_label.find 5 = some "b" ∧
      after.registry_dropdown.find 5 = some ["y", "x"] :=
  ⟨by decide,
    (on_widget_delete_frame ⟨⟨[(3, "a"), (5, "b")]⟩, ⟨[(5, ["y", "x"])]⟩⟩ 3 5
      (by decide)).imp
      (fun _ h => ⟨h.1, h.2.1, h.2.2.1, h.2.2.2.1, h.2.2.2.2.1⟩)⟩

/-- C8: `n ≥ 1` successive calls of `translate_label` (bind-single) on one
widget `w`, with any keys, make a single toolkit call in all when `w` had no
single binding before, the registration of the destroy callback on `w`, and none
when it had one; `n ≥ 1` successive calls of `translate_select` (bind-list) on
`w` with non-null raw options register the destroy callback on `w` once when
`w` had no list binding before, and not at all when it had one. -/
theorem destroy_callback_registered_once (tr : String → String) (self : I18nHelper)
    (w : lv_obj_ptr) (keys raws : List String) (hkeys : keys ≠ []) (hraws : raws ≠ []) :
    (translate_label_calls tr self w keys).2
        = (if self.registry_label.find w = none then [LvCall.lv_obj_add_event_cb w] else []) ∧
    (translate_label_calls tr self w keys).2.count (LvCall.lv_obj_add_event_cb w) ≤ 1 ∧
    (translate_select_calls tr self w raws).2.count (LvCall.lv_obj_add_event_cb w)
        = (if self.registry_dropdown.find w = none then 1 else 0) ∧
    (translate_select_calls tr self w raws).2.count (LvCall.lv_obj_add_event_cb w) ≤ 1 := by
  have hlabel : (translate_label_calls tr self w keys).2
      = (if self.registry_label.find w = none then [LvCall.lv_obj_add_event_cb w] else []) := by
    obtain ⟨key, rest, rfl⟩ := List.exists_cons_of_ne_nil hkeys
    unfold translate_label_calls
    have hnext : (translate_label tr self w key).1.registry_label.find w ≠ none := by
      rw [translate_label_find]
      simp
    rw [translate_label_calls_bound tr w rest _ hnext, translate_label_calls_made]
    simp
  have hselect : (translate_select_calls tr self w raws).2.count (LvCall.lv_obj_add_event_cb w)
      = (if self.registry_dropdown.find w = none then 1 else 0) := by
    by_cases h : self.registry_dropdown.find w = none
    · obtain ⟨raw_opts, rest, rfl⟩ := List.exists_cons_of_ne_nil hraws
      unfold translate_select_calls
      rw [translate_select_first tr _ self w raw_opts h rfl]
      have hnext : (self.registry_dropdown.assign w (split_options raw_opts)).find w ≠ none := by
        rw [StdMap.find_assign_self]
        simp
      simp only [List.count_append]
      rw [translate_select_calls_bound tr w rest _ hnext]
      simp [h]
    · rw [translate_select_calls_bound tr w raws self h]
      simp [h]
  refine ⟨hlabel, ?_, hselect, ?_⟩
  · rw [hlabel]
    by_cases h : self.registry_label.find w = none
    · simp [h]
    · simp [h]
  · rw [hselect]
    by_cases h : self.registry_dropdown.find w = none
    · simp [h]
    · simp [h]

/-- C8 for three label bindings and two dropdown bindings of widget 9. -/
theorem destroy_callback_registered_once_witness :
    ["k1", "k2", "k3"] ≠ [] ∧ ["a\nb", "c"] ≠ [] ∧
    (translate_label_calls (fun key => key) I18nHelper.init 9 ["k1", "k2", "k3"]).2
        = [LvCall.lv_obj_add_event_cb 9] ∧
    (translate_select_calls (fun key => key) I18nHelper.init 9 ["a\nb", "c"]).2.count
        (LvCall.lv_obj_add_event_cb 9) = 1 :=
  ⟨by decide, by decide,
    (destroy_callback_registered_once (fun key => key) I18nHelper.init 9 ["k1", "k2", "k3"]
      ["a\nb", "c"] (by decide) (by decide)).1,
    (destroy_callback_registered_once (fun key => key) I18nHelper.init 9 ["k1", "k2", "k3"]
      ["a\nb", "c"] (by decide) (by decide)).2.2.1⟩

/-- C9: `update_translations` (refresh-all) returns the registry exactly as it
was, both maps equal to what they were, and so does every
`refresh_dropdown_options` it runs; it registers no destroy callback. -/
theorem update_translations_registry_unchanged (tr : String → String) (self : I18nHelper) :
    (update_translations tr self).1 = self ∧
    (update_translations tr self).1.registry_label = self.registry_label ∧
    (update_translations tr self).1.registry_dropdown = self.registry_dropdown ∧
    (∀ obj, (refresh_dropdown_options tr self obj).1 = self) ∧
    (∀ obj, LvCall.lv_obj_add_event_cb obj ∉ (update_translations tr self).2) := by
  have h : (update_translations tr self).1 = self := by rw [update_translations_eq]
  refine ⟨h, by rw [h], by rw [h], ?_, ?_⟩
  · intro obj
    cases hfind : self.registry_dropdown.find obj with
    | none => rw [refresh_dropdown_options_of_find_none tr self obj hfind]
    | some keys => rw [refresh_dropdown_options_of_find tr self obj keys hfind]
  · intro obj hmem
    rw [update_translations_eq] at hmem
    simp [dropdown_write] at hmem

/-- C10: the widgets `update_translations` (refresh-all) acts on are exactly the
widgets with a single binding or a list binding: a widget bound to `key` gets
the label text `tr key`, a widget with list binding `keys` gets as option text
the translations of `keys` in order joined by newlines, and every call made
acts on a bound widget. On a registry of two single and two list bindings the
calls are exactly the four writes. -/
theorem update_translations_writes (tr : String → String) (self : I18nHelper) :
    (∀ w key, self.registry_label.find w = some key →
      LvCall.lv_label_set_text w (tr key) ∈ (update_translations tr self).2) ∧
    (∀ w keys, self.registry_dropdown.find w = some keys →
      LvCall.lv_dropdown_set_options w (String.intercalate "\n" (keys.map tr))
        ∈ (update_translations tr self).2) ∧
    (∀ w, (∃ c ∈ (update_translations tr self).2, c.target = w) ↔
      (self.registry_label.find w ≠ none ∨ self.registry_dropdown.find w ≠ none)) ∧
    (∀ (a b c d : lv_obj_ptr) (ka kb : String) (ksc ksd : List String),
      self = ⟨⟨[(a, ka), (b, kb)]⟩, ⟨[(c, ksc), (d, ksd)]⟩⟩ → a < b → c < d →
      (update_translations tr self).2
        = [LvCall.lv_label_set_text a (tr ka), LvCall.lv_label_set_text b (tr kb),
            LvCall.lv_dropdown_set_options c (String.intercalate "\n" (ksc.map tr)),
            LvCall.lv_dropdown_set_options d (String.intercalate "\n" (ksd.map tr))]) := by
  have hlabel : ∀ w key, self.registry_label.find w = some key →
      LvCall.lv_label_set_text w (tr key) ∈ (update_translations tr self).2 := by
    intro w key h
    rw [label_write_mem_update_translations]
    exact ⟨key, StdMap.mem_entries_of_find _ w key h, rfl⟩
  have hdrop : ∀ w keys, self.registry_dropdown.find w = some keys →
      LvCall.lv_dropdown_set_options w (String.intercalate "\n" (keys.map tr))
        ∈ (update_translations tr self).2 := by
    intro w keys h
    rw [update_translations_eq]
    refine List.mem_append_right _ (List.mem_map.mpr ⟨(w, keys), ?_, ?_⟩)
    · exact StdMap.mem_entries_of_find _ w keys h
    · simp [dropdown_write, h]
  refine ⟨hlabel, hdrop, ?_, ?_⟩
  · intro w
    constructor
    · rintro ⟨c, hc, htarget⟩
      rw [update_translations_eq] at hc
      rcases List.mem_append.mp hc with hc | hc
      · obtain ⟨e, he, rfl⟩ := List.mem_map.mp hc
        left
        rw [← htarget]
        exact find_ne_none_of_mem _ e he
      · obtain ⟨e, he, rfl⟩ := List.mem_map.mp hc
        right
        rw [← htarget]
        exact find_ne_none_of_mem _ e he
    · rintro (h | h)
      · obtain ⟨key, hkey⟩ := Option.ne_none_iff_exists'.mp h
        exact ⟨_, hlabel w key hkey, rfl⟩
      · obtain ⟨keys, hkeys⟩ := Option.ne_none_iff_exists'.mp h
        exact ⟨_, hdrop w keys hkeys, rfl⟩
  · intro a b c d ka kb ksc ksd hself hab hcd
    subst hself
    rw [update_translations_eq]
    have hcd' : ¬ c = d := Nat.ne_of_lt hcd
    simp [dropdown_write, StdMap.find, StdMap.findEntries, hcd']

/-- C10 on two labels and two dropdowns. -/
theorem update_translations_writes_witness :
    (update_translations (fun key => key ++ "!")
        ⟨⟨[(1, "a"), (2, "b")]⟩, ⟨[(3, ["x", "y"]), (4, ["z"])]⟩⟩).2
      = [LvCall.lv_label_set_text 1 "a!", LvCall.lv_label_set_text 2 "b!",
          LvCall.lv_dropdown_set_options 3 "x!\ny!",
          LvCall.lv_dropdown_set_options 4 "z!"] :=
  (update_translations_writes (fun key => key ++ "!")
    ⟨⟨[(1, "a"), (2, "b")]⟩, ⟨[(3, ["x", "y"]), (4, ["z"])]⟩⟩).2.2.2 1 2 3 4 "a" "b"
    ["x", "y"] ["z"] rfl (by decide) (by decide)

/-- C11: for a widget `w` that already has the list binding `keys`,
`translate_select` (bind-list) does not look at the raw options the toolkit
reports, whatever they are: the registry is returned as it was, with `keys`
still stored for `w`, no destroy callback is registered, and the only toolkit
call is the re-render, the option-text write of the translations of `keys`
joined by newlines. -/
theorem translate_select_known_widget (tr : String → String)
    (lv_dropdown_get_options : lv_obj_ptr → Option String) (self : I18nHelper)
    (w : lv_obj_ptr) (keys : List String) (h : self.registry_dropdown.find w = some keys) :
    translate_select tr lv_dropdown_get_options self (some ⟨w⟩)
        = (self,
            [LvCall.lv_dropdown_set_options w (String.intercalate "\n" (keys.map tr))]) ∧
    (translate_select tr lv_dropdown_get_options self (some ⟨w⟩)).1.registry_dropdown.find w
        = some keys ∧
    (∀ obj, LvCall.lv_obj_add_event_cb obj
        ∉ (translate_select tr lv_dropdown_get_options self (some ⟨w⟩)).2) := by
  have hknown := translate_select_known tr lv_dropdown_get_options self w keys h
  refine ⟨hknown, ?_, ?_⟩
  · rw [hknown]
    exact h
  · intro obj hmem
    rw [hknown] at hmem
    simp at hmem

/-- C11 on a dropdown bound to `x`, `y` whose raw options are now null, empty, or
another text. -/
theorem translate_select_known_widget_witness :
    (⟨⟨[]⟩, ⟨[(4, ["x", "y"])]⟩⟩ : I18nHelper).registry_dropdown.find 4 = some ["x", "y"] ∧
    translate_select (fun key => key ++ "!") (fun _ => none) ⟨⟨[]⟩, ⟨[(4, ["x", "y"])]⟩⟩
        (some ⟨4⟩)
      = (⟨⟨[]⟩, ⟨[(4, ["x", "y"])]⟩⟩, [LvCall.lv_dropdown_set_options 4 "x!\ny!"]) ∧
    translate_select (fun key => key ++ "!") (fun _ => some "") ⟨⟨[]⟩, ⟨[(4, ["x", "y"])]⟩⟩
        (some ⟨4⟩)
      = (⟨⟨[]⟩, ⟨[(4, ["x", "y"])]⟩⟩, [LvCall.lv_dropdown_set_options 4 "x!\ny!"]) ∧
    translate_select (fun key => key ++ "!") (fun _ => some "p\nq\nr")
        ⟨⟨[]⟩, ⟨[(4, ["x", "y"])]⟩⟩ (some ⟨4⟩)
      = (⟨⟨[]⟩, ⟨[(4, ["x", "y"])]⟩⟩, [LvCall.lv_dropdown_set_options 4 "x!\ny!"]) :=
  ⟨by decide,
    (translate_select_known_widget (fun key => key ++ "!") (fun _ => none)
      ⟨⟨[]⟩, ⟨[(4, ["x", "y"])]⟩⟩ 4 ["x", "y"] (by decide)).1,
    (translate_select_known_widget (fun key => key ++ "!") (fun _ => some "")
      ⟨⟨[]⟩, ⟨[(4, ["x", "y"])]⟩⟩ 4 ["x", "y"] (by decide)).1,
    (translate_select_known_widget (fun key => key ++ "!") (fun _ => some "p\nq\nr")
      ⟨⟨[]⟩, ⟨[(4, ["x", "y"])]⟩⟩ 4 ["x", "y"] (by decide)).1⟩

/-- C13: on a widget `w` without list binding, `refresh_dropdown_options`
(refresh-one) makes no toolkit call and returns the registry as it was, so no
entry, not even an empty one, appears for `w`; this is so in particular right
after `on_widget_delete` for `w`. -/
theorem refresh_dropdown_options_unbound (tr : String → String) (self : I18nHelper)
    (w : lv_obj_ptr) :
    (self.registry_dropdown.find w = none →
      refresh_dropdown_options tr self w = (self, []) ∧
      (refresh_dropdown_options tr self w).1.registry_label = self.registry_label ∧
      (refresh_dropdown_options tr self w).1.registry_dropdown = self.registry_dropdown ∧
      (refresh_dropdown_options tr self w).1.registry_dropdown.find w = none) ∧
    (∀ after, on_widget_delete ⟨some self, w⟩ = some after →
      refresh_dropdown_options tr after w = (after, [])) := by
  constructor
  · intro h
    have hnone := refresh_dropdown_options_of_find_none tr self w h
    rw [hnone]
    exact ⟨rfl, rfl, rfl, h⟩
  · intro after hafter
    have : after = ⟨self.registry_label.erase w, self.registry_dropdown.erase w⟩ :=
      (Option.some.inj hafter).symm
    rw [this]
    exact refresh_dropdown_options_of_find_none tr _ w (StdMap.find_erase_self _ _)

/-- C13 on a widget bound only as a label, and on a dropdown just destroyed. -/
theorem refresh_dropdown_options_unbound_witness :
    (⟨⟨[(3, "title")]⟩, ⟨[(5, ["a"])]⟩⟩ : I18nHelper).registry_dropdown.find 3 = none ∧
    refresh_dropdown_options (fun key => key) ⟨⟨[(3, "title")]⟩, ⟨[(5, ["a"])]⟩⟩ 3
      = (⟨⟨[(3, "title")]⟩, ⟨[(5, ["a"])]⟩⟩, []) ∧
    refresh_dropdown_options (fun key => key) ⟨⟨[(3, "title")]⟩, ⟨[]⟩⟩ 5
      = (⟨⟨[(3, "title")]⟩, ⟨[]⟩⟩, []) :=
  ⟨by decide,
    ((refresh_dropdown_options_unbound (fun key => key)
      ⟨⟨[(3, "title")]⟩, ⟨[(5, ["a"])]⟩⟩ 3).1 (by decide)).1,
    (refresh_dropdown_options_unbound (fun key => key)
      ⟨⟨[(3, "title")]⟩, ⟨[(5, ["a"])]⟩⟩ 5).2 ⟨⟨[(3, "title")]⟩, ⟨[]⟩⟩ rfl⟩

/-- C16: the two maps are independent. `translate_label` (bind-single) on `w`
leaves the dropdown map as it was and the single binding of every other widget
as it was; `translate_select` (bind-list) leaves the label map as it was, leaves
the whole registry as it was for a null dropdown, and on the widget `w` leaves
the list binding of every other widget as it was. -/
theorem bind_frame (tr : String → String)
    (lv_dropdown_get_options : lv_obj_ptr → Option String) (self : I18nHelper)
    (w : lv_obj_ptr) (key : String) :
    (translate_label tr self w key).1.registry_dropdown = self.registry_dropdown ∧
    (∀ v, v ≠ w →
      (translate_label tr self w key).1.registry_label.find v = self.registry_label.find v) ∧
    (∀ dropdown,
      (translate_select tr lv_dropdown_get_options self dropdown).1.registry_label
        = self.registry_label) ∧
    (translate_select tr lv_dropdown_get_options self none).1 = self ∧
    (∀ v, v ≠ w →
      (translate_select tr lv_dropdown_get_options self (some ⟨w⟩)).1.registry_dropdown.find v
        = self.registry_dropdown.find v) := by
  have hselect : ∀ u : lv_obj_ptr,
      (translate_select tr lv_dropdown_get_options self (some ⟨u⟩)).1 = self ∨
      ∃ keys, (translate_select tr lv_dropdown_get_options self (some ⟨u⟩)).1
        = { self with registry_dropdown := self.registry_dropdown.assign u keys } := by
    intro u
    cases hfind : self.registry_dropdown.find u with
    | some keys =>
      left
      rw [translate_select_known tr _ self u keys hfind]
    | none =>
      cases hraw : lv_dropdown_get_options u with
      | none =>
        left
        unfold translate_select
        simp only [hfind, if_true, hraw]
      | some raw_opts =>
        right
        exact ⟨split_options raw_opts, by
          rw [translate_select_first tr _ self u raw_opts hfind hraw]⟩
  refine ⟨(translate_label_registry tr self w key).2, ?_, ?_, rfl, ?_⟩
  · intro v hv
    rw [(translate_label_registry tr self w key).1]
    by_cases h : self.registry_label.find w = none
    · simp only [h, if_true]
      rw [StdMap.find_assign_ne _ _ _ _ hv, StdMap.find_assign_ne _ _ _ _ hv]
    · simp only [h, if_false]
      rw [StdMap.find_assign_ne _ _ _ _ hv]
  · intro dropdown
    cases dropdown with
    | none => rfl
    | some d =>
      obtain ⟨u⟩ := d
      rcases hselect u with h | ⟨keys, h⟩
      · rw [h]
      · rw [h]
  · intro v hv
    rcases hselect w with h | ⟨keys, h⟩
    · rw [h]
    · rw [h]
      exact StdMap.find_assign_ne _ _ _ _ hv

/-- C16 for widgets 3 and 5 bound both ways, the binding calls being on widget 3. -/
theorem bind_frame_witness :
    (5 : lv_obj_ptr) ≠ 3 ∧
    (translate_label (fun key => key) ⟨⟨[(3, "a"), (5, "b")]⟩, ⟨[(5, ["x"])]⟩⟩ 3
        "c").1.registry_label.find 5 = some "b" ∧
    (translate_select (fun key => key) (fun _ => some "p\nq")
        ⟨⟨[(3, "a"), (5, "b")]⟩, ⟨[(5, ["x"])]⟩⟩ (some ⟨3⟩)).1.registry_dropdown.find 5
      = some ["x"] :=
  ⟨by decide,
    (bind_frame (fun key => key) (fun _ => some "p\nq")
      ⟨⟨[(3, "a"), (5, "b")]⟩, ⟨[(5, ["x"])]⟩⟩ 3 "c").2.1 5 (by decide),
    (bind_frame (fun key => key) (fun _ => some "p\nq")
      ⟨⟨[(3, "a"), (5, "b")]⟩, ⟨[(5, ["x"])]⟩⟩ 3 "c").2.2.2.2 5 (by decide)⟩

/-- C12: for keys none of which holds a newline or ends with a carriage return,
the parser of `translate_select` reads the same key sequence from the keys joined
with `"\r\n"` as from the keys joined with `"\n"`, and also from the keys joined
with any mixture of the two line endings. -/
theorem split_options_line_endings (keys : List String) (crlf : Nat → Bool)
    (h : ∀ key ∈ keys, '\n' ∉ key.data ∧ key.data.getLast? ≠ some '\r') :
    split_options (String.intercalate "\r\n" keys)
        = split_options (String.intercalate "\n" keys) ∧
    split_options (join_endings crlf 0 keys)
        = split_options (String.intercalate "\n" keys) := by
  rw [← join_endings_lf keys 0, ← join_endings_crlf keys 0]
  exact ⟨split_options_join_endings keys h _ _ 0 0, split_options_join_endings keys h _ _ 0 0⟩

/-- C12 on three keys, the middle one empty, and on endings that alternate. -/
theorem split_options_line_endings_witness :
    (∀ key ∈ ["ka", "", "k\rc"], '\n' ∉ key.data ∧ key.data.getLast? ≠ some '\r') ∧
    split_options "ka\r\n\r\nk\rc" = split_options "ka\n\nk\rc" ∧
    split_options "ka\r\n\nk\rc" = split_options "ka\n\nk\rc" :=
  ⟨by decide,
    (split_options_line_endings ["ka", "", "k\rc"] (fun _ => true) (by decide)).1,
    (split_options_line_endings ["ka", "", "k\rc"] (fun i => i == 0) (by decide)).2⟩

/-- C17: no key read by the parser of `translate_select` holds a newline, and the
number of keys is the number of newlines of the options, plus one exactly when
the options are not empty and do not end with a newline; so options that end
with a newline give as many keys as newlines, and empty options give no key. -/
theorem split_options_length (s : String) :
    (∀ key ∈ split_options s, '\n' ∉ key.data) ∧
    (split_options s).length
        = s.data.count '\n' + (if s.data ≠ [] ∧ s.data.getLast? ≠ some '\n' then 1 else 0) ∧
    (s.data.getLast? = some '\n' → (split_options s).length = s.data.count '\n') ∧
    (s.data = [] → split_options s = []) := by
  have key : ∀ l : List Char,
      (∀ key ∈ split_options (String.mk l), '\n' ∉ key.data) ∧
      (split_options (String.mk l)).length
        = l.count '\n' + (if l ≠ [] ∧ l.getLast? ≠ some '\n' then 1 else 0) := by
    apply newline_induction
    · rw [split_options_nil]
      exact ⟨fun key hkey => absurd hkey (List.not_mem_nil key), rfl⟩
    · intro token hne h
      rw [split_options_token token hne h]
      have hlast : token.getLast? ≠ some '\n' := fun h2 => h (List.mem_of_getLast?_eq_some h2)
      refine ⟨?_, ?_⟩
      · intro key hkey hmem
        rw [List.mem_singleton.mp hkey] at hmem
        exact h (mem_of_mem_pop_back_cr token _ hmem)
      · simp [hne, hlast, List.count_eq_zero_of_not_mem h]
    · intro token rest h ih
      obtain ⟨ih1, ih2⟩ := ih
      rw [split_options_token_newline token rest h]
      refine ⟨?_, ?_⟩
      · intro key hkey hmem
        rcases List.mem_cons.mp hkey with hkey | hkey
        · rw [hkey] at hmem
          exact h (mem_of_mem_pop_back_cr token _ hmem)
        · exact ih1 key hkey hmem
      · rw [List.length_cons, ih2, getLast?_token_newline, List.count_append,
          List.count_eq_zero_of_not_mem h, List.count_cons_self]
        by_cases hrest : rest = []
        · subst hrest
          simp
        · simp only [hrest, if_false, ne_eq, not_false_eq_true, true_and,
            List.append_eq_nil, reduceCtorEq, and_false]
          omega
  obtain ⟨h1, h2⟩ := key s.data
  refine ⟨h1, h2, ?_, ?_⟩
  · intro hlast
    have h3 : (split_options s).length
        = s.data.count '\n' + (if s.data ≠ [] ∧ s.data.getLast? ≠ some '\n' then 1 else 0) := h2
    rw [h3]
    simp [hlast]
  · intro hnil
    have h3 : s = String.mk [] := String.ext hnil
    rw [h3]
    rfl

/-- C17 on options that end with a newline. -/
theorem split_options_length_witness :
    "a\n\nb\n".data.getLast? = some '\n' ∧ (split_options "a\n\nb\n").length = 3 :=
  ⟨by decide, (split_options_length "a\n\nb\n").2.2.1 (by decide)⟩

/-- C18: the keys read by the parser of `translate_select` are, in order, the
newline-delimited lines of the options, each with one trailing carriage return
removed when the line ends with one and unchanged otherwise. So `"a\r"` is stored
as `"a"`, `"a\r\r"` as `"a\r"`, and a carriage return inside a line is kept. -/
theorem split_options_lines (s : String) :
    List.Forall₂ key_of_line (split_options s) (key_lines s.data) ∧
    split_options "a\r" = ["a"] ∧ split_options "a\r\r" = ["a\r"] ∧
    split_options "a\rb\nc\r\n" = ["a\rb", "c"] := by
  refine ⟨?_, by decide, by decide, by decide⟩
  have h : split_options s
      = (key_lines s.data).map (fun line => String.mk (pop_back_cr line)) :=
    split_options_eq_key_lines s.data
  rw [h, List.forall₂_map_left_iff]
  exact List.forall₂_same.mpr (fun line _ => key_of_line_pop_back_cr line)

/-- C14: in every state reached from the empty registry by calls of
`translate_label`, `translate_select`, `refresh_dropdown_options`,
`update_translations` and teardowns of widgets, every widget with an entry in
the label map or in the dropdown map has a destroy callback registered; so
right after the teardown of a widget `w`, `w` is in neither map. -/
theorem no_entry_outlives_widget (steps : List ((String → String) × Op)) :
    (∀ w, ((World.init.run steps).helper.registry_label.find w ≠ none ∨
          (World.init.run steps).helper.registry_dropdown.find w ≠ none) →
        w ∈ (World.init.run steps).event_cbs) ∧
    (∀ (tr : String → String) (w : lv_obj_ptr),
      ((World.init.run steps).step tr (Op.teardown w)).helper.registry_label.find w = none ∧
      ((World.init.run steps).step tr (Op.teardown w)).helper.registry_dropdown.find w = none ∧
      w ∉ ((World.init.run steps).step tr (Op.teardown w)).event_cbs) := by
  have hcounted := counted_run steps World.init counted_init
  constructor
  · intro w hw
    have hpos : 0 < bindings_of (World.init.run steps).helper w := by
      unfold bindings_of
      rcases hw with hw | hw
      · simp only [hw, if_false]
        omega
      · simp only [hw, if_false]
        omega
    rw [← hcounted w] at hpos
    exact List.count_pos_iff.mp hpos
  · intro tr w
    have hafter := counted_step tr _ (Op.teardown w) hcounted w
    have hnot : w ∉ ((World.init.run steps).step tr (Op.teardown w)).event_cbs := by
      intro hmem
      have := (List.mem_filter.mp hmem).2
      simp at this
    rw [List.count_eq_zero_of_not_mem hnot] at hafter
    unfold bindings_of at hafter
    refine ⟨?_, ?_, hnot⟩
    · by_contra hne
      simp only [hne, if_false] at hafter
      omega
    · by_contra hne
      simp only [hne, if_false] at hafter
      omega

/-- C15, as stated, fails: a widget with both a single binding and a list binding,
as widget 1 is after one `translate_label` and one `translate_select`, gets two
text updates in one `update_translations`, its label text and its option text. -/
theorem update_translations_two_updates :
    (World.init.run [((fun key : String => key), Op.translate_label 1 "a"),
        ((fun key : String => key), Op.translate_select (some ⟨1⟩) (some "x"))]).helper
      = ⟨⟨[(1, "a")]⟩, ⟨[(1, ["x"])]⟩⟩ ∧
    (⟨⟨[(1, "a")]⟩, ⟨[(1, ["x"])]⟩⟩ : I18nHelper).WellFormed ∧
    (update_translations (fun key => key) ⟨⟨[(1, "a")]⟩, ⟨[(1, ["x"])]⟩⟩).2
      = [LvCall.lv_label_set_text 1 "a", LvCall.lv_dropdown_set_options 1 "x"] ∧
    (update_translations (fun key => key) ⟨⟨[(1, "a")]⟩, ⟨[(1, ["x"])]⟩⟩).2.countP
        (fun c => decide (c.target = 1)) ≠ 1 := by
  decide

/-- C15 (amended): within one `update_translations` (refresh-all), the number of
text updates a widget gets is the number of maps that hold it: exactly one for
a widget with a single binding or a list binding but not both, exactly two for
a widget with both, none for any other. A widget with a single binding `key`
gets exactly one label-text write, `lv_label_set_text` with `tr key`, and a
widget without one gets no label-text write; a widget with a list binding
`keys` gets exactly one option-text write, `lv_dropdown_set_options` with the
translations of `keys` joined by newlines, and a widget without one gets no
option-text write. So the two updates of a widget with both bindings are one
label-text write and one option-text write. -/
theorem update_translations_updates_per_widget (tr : String → String) (self : I18nHelper)
    (hwf : self.WellFormed) (w : lv_obj_ptr) :
    (update_translations tr self).2.countP (fun c => decide (c.target = w))
        = bindings_of self w ∧
    (self.registry_label.find w ≠ none → self.registry_dropdown.find w = none →
      (update_translations tr self).2.countP (fun c => decide (c.target = w)) = 1) ∧
    (self.registry_label.find w = none → self.registry_dropdown.find w ≠ none →
      (update_translations tr self).2.countP (fun c => decide (c.target = w)) = 1) ∧
    (self.registry_label.find w ≠ none → self.registry_dropdown.find w ≠ none →
      (update_translations tr self).2.countP (fun c => decide (c.target = w)) = 2) ∧
    (self.registry_label.find w = none → self.registry_dropdown.find w = none →
      (update_translations tr self).2.countP (fun c => decide (c.target = w)) = 0) ∧
    (update_translations tr self).2.countP (LvCall.isLabelTextOf w)
        = (if self.registry_label.find w = none then 0 else 1) ∧
    (update_translations tr self).2.countP (LvCall.isOptionTextOf w)
        = (if self.registry_dropdown.find w = none then 0 else 1) ∧
    (∀ key, self.registry_label.find w = some key →
      (update_translations tr self).2.count (LvCall.lv_label_set_text w (tr key)) = 1) ∧
    (∀ keys, self.registry_dropdown.find w = some keys →
      (update_translations tr self).2.count
        (LvCall.lv_dropdown_set_options w (String.intercalate "\n" (keys.map tr))) = 1) ∧
    (self.registry_label.find w ≠ none → self.registry_dropdown.find w ≠ none →
      (update_translations tr self).2.countP (LvCall.isLabelTextOf w) = 1 ∧
      (update_translations tr self).2.countP (LvCall.isOptionTextOf w) = 1) := by
  have h := countP_update_translations tr self hwf w
  have hlabel := countP_label_text_update_translations tr self hwf w
  have hoption := countP_option_text_update_translations tr self hwf w
  refine ⟨h, ?_, ?_, ?_, ?_, hlabel, hoption, ?_, ?_, ?_⟩
  · intro h1 h2
    rw [h]
    unfold bindings_of
    simp [h1, h2]
  · intro h1 h2
    rw [h]
    unfold bindings_of
    simp [h1, h2]
  · intro h1 h2
    rw [h]
    unfold bindings_of
    simp [h1, h2]
  · intro h1 h2
    rw [h]
    unfold bindings_of
    simp [h1, h2]
  · intro key hkey
    refine count_eq_one_of_mem _ _ (LvCall.isLabelTextOf w) (by simp [LvCall.isLabelTextOf])
      ?_ ?_
    · rw [label_write_mem_update_translations]
      exact ⟨key, StdMap.mem_entries_of_find _ w key hkey, rfl⟩
    · rw [hlabel]
      split <;> omega
  · intro keys hkeys
    refine count_eq_one_of_mem _ _ (LvCall.isOptionTextOf w) (by simp [LvCall.isOptionTextOf])
      ?_ ?_
    · rw [update_translations_eq]
      refine List.mem_append_right _ (List.mem_map.mpr ⟨(w, keys), ?_, ?_⟩)
      · exact StdMap.mem_entries_of_find _ w keys hkeys
      · simp [dropdown_write, hkeys]
    · rw [hoption]
      split <;> omega
  · intro h1 h2
    rw [hlabel, hoption]
    simp [h1, h2]

/-- C15 (amended) on a label, a dropdown, and a widget bound both ways, which gets
one label-text write and one option-text write. -/
theorem update_translations_updates_per_widget_witness :
    (⟨⟨[(1, "a"), (2, "b")]⟩, ⟨[(2, ["x"]), (3, ["y", "z"])]⟩⟩ : I18nHelper).WellFormed ∧
    (update_translations (fun key => key)
        ⟨⟨[(1, "a"), (2, "b")]⟩, ⟨[(2, ["x"]), (3, ["y", "z"])]⟩⟩).2.countP
        (fun c => decide (c.target = 1)) = 1 ∧
    (update_translations (fun key => key)
        ⟨⟨[(1, "a"), (2, "b")]⟩, ⟨[(2, ["x"]), (3, ["y", "z"])]⟩⟩).2.countP
        (fun c => decide (c.target = 2)) = 2 ∧
    ((update_translations (fun key => key)
        ⟨⟨[(1, "a"), (2, "b")]⟩, ⟨[(2, ["x"]), (3, ["y", "z"])]⟩⟩).2.countP
        (LvCall.isLabelTextOf 2) = 1 ∧
      (update_translations (fun key => key)
        ⟨⟨[(1, "a"), (2, "b")]⟩, ⟨[(2, ["x"]), (3, ["y", "z"])]⟩⟩).2.countP
        (LvCall.isOptionTextOf 2) = 1) ∧
    (update_translations (fun key => key)
        ⟨⟨[(1, "a"), (2, "b")]⟩, ⟨[(2, ["x"]), (3, ["y", "z"])]⟩⟩).2.count
        (LvCall.lv_dropdown_set_options 3 "y\nz") = 1 :=
  ⟨by decide,
    (update_translations_updates_per_widget (fun key => key)
      ⟨⟨[(1, "a"), (2, "b")]⟩, ⟨[(2, ["x"]), (3, ["y", "z"])]⟩⟩ (by decide) 1).2.1
      (by decide) (by decide),
    (update_translations_updates_per_widget (fun key => key)
      ⟨⟨[(1, "a"), (2, "b")]⟩, ⟨[(2, ["x"]), (3, ["y", "z"])]⟩⟩ (by decide) 2).2.2.2.1
      (by decide) (by decide),
    (update_translations_updates_per_widget (fun key => key)
      ⟨⟨[(1, "a"), (2, "b")]⟩, ⟨[(2, ["x"]), (3, ["y", "z"])]⟩⟩ (by decide)
      2).2.2.2.2.2.2.2.2.2 (by decide) (by decide),
    (update_translations_updates_per_widget (fun key => key)
      ⟨⟨[(1, "a"), (2, "b")]⟩, ⟨[(2, ["x"]), (3, ["y", "z"])]⟩⟩ (by decide)
      3).2.2.2.2.2.2.2.2.1 ["y", "z"] (by decide)⟩

/-- C19: after any sequence of operations from the empty registry, in particular
after any sequence of `translate_label` and `translate_select` calls with no
teardown in between, the number of destroy callbacks registered on a widget is
the number of maps (0, 1 or 2) that hold it; it is two for a widget bound both
as a label and as a dropdown, and never more than two. -/
theorem callbacks_counted_per_map (steps : List ((String → String) × Op)) (w : lv_obj_ptr) :
    (World.init.run steps).event_cbs.count w = bindings_of (World.init.run steps).helper w ∧
    (World.init.run steps).event_cbs.count w ≤ 2 ∧
    ((World.init.run steps).helper.registry_label.find w ≠ none →
      (World.init.run steps).helper.registry_dropdown.find w ≠ none →
      (World.init.run steps).event_cbs.count w = 2) := by
  have hcounted := counted_run steps World.init counted_init w
  refine ⟨hcounted, ?_, ?_⟩
  · rw [hcounted]
    exact bindings_of_le_two _ w
  · intro h1 h2
    rw [hcounted]
    unfold bindings_of
    simp [h1, h2]

/-- C19 on widget 3, bound as a label twice and as a dropdown once. -/
theorem callbacks_counted_per_map_witness :
    (∀ step ∈ [((fun key : String => key), Op.translate_label 3 "a"),
        ((fun key : String => key), Op.translate_select (some ⟨3⟩) (some "x\ny")),
        ((fun key : String => key), Op.translate_label 3 "b")], step.2.isBind = true) ∧
    (World.init.run [((fun key : String => key), Op.translate_label 3 "a"),
        ((fun key : String => key), Op.translate_select (some ⟨3⟩) (some "x\ny")),
        ((fun key : String => key), Op.translate_label 3 "b")]).event_cbs.count 3 = 2 :=
  ⟨by decide,
    (callbacks_counted_per_map [((fun key : String => key), Op.translate_label 3 "a"),
        ((fun key : String => key), Op.translate_select (some ⟨3⟩) (some "x\ny")),
        ((fun key : String => key), Op.translate_label 3 "b")] 3).2.2
      (by decide) (by decide)⟩

/-- C20: the loop of `refresh_dropdown_options` reads `keys[i]` exactly at the
indices `0, ..., keys.size() - 1`, all below `keys.size()`, and computes
`keys.size() - 1` only inside the body, where it does not wrap around. For the
empty key sequence it reads no key and never computes the difference (which
would wrap to `2 ^ 32 - 1`), and `refresh_dropdown_options` writes the empty
string as the option text. -/
theorem refresh_loop_in_range (tr : String → String) (keys : List String) :
    (refresh_loop_reads tr keys (keys.length + 1) 0 "").1
        = refresh_loop tr keys (keys.length + 1) 0 "" ∧
    (refresh_loop_reads tr keys (keys.length + 1) 0 "").2.1 = List.range keys.length ∧
    (∀ i ∈ (refresh_loop_reads tr keys (keys.length + 1) 0 "").2.1, i < keys.length) ∧
    (∀ b ∈ (refresh_loop_reads tr keys (keys.length + 1) 0 "").2.2,
      0 < keys.length ∧ b = keys.length - 1) ∧
    refresh_loop_reads tr [] 1 0 "" = ("", [], []) ∧
    size_t_sub 0 1 = 2 ^ 32 - 1 ∧
    (∀ (self : I18nHelper) (w : lv_obj_ptr), self.registry_dropdown.find w = some [] →
      refresh_dropdown_options tr self w = (self, [LvCall.lv_dropdown_set_options w ""])) := by
  have h := refresh_loop_reads_eq tr keys (keys.length + 1) 0 "" (by omega) (by omega)
  simp only [Nat.sub_zero] at h
  have hreads : (refresh_loop_reads tr keys (keys.length + 1) 0 "").2.1
      = List.range' 0 keys.length := by rw [h]
  have hbounds : (refresh_loop_reads tr keys (keys.length + 1) 0 "").2.2
      = List.replicate keys.length (keys.length - 1) := by rw [h]
  refine ⟨by rw [h], ?_, ?_, ?_, rfl, by decide, ?_⟩
  · rw [hreads]
    exact (List.range_eq_range' (n := keys.length)).symm
  · intro i hi
    rw [hreads] at hi
    have := (List.mem_range'_1.mp hi).2
    omega
  · intro b hb
    rw [hbounds] at hb
    obtain ⟨hne, hb⟩ := List.mem_replicate.mp hb
    exact ⟨by omega, hb⟩
  · intro self w hfind
    rw [refresh_dropdown_options_of_find tr self w [] hfind]
    rfl

/-- C20 on a dropdown bound to the empty key sequence. -/
theorem refresh_loop_in_range_witness :
    (⟨⟨[]⟩, ⟨[(6, [])]⟩⟩ : I18nHelper).registry_dropdown.find 6 = some [] ∧
    refresh_dropdown_options (fun key => key) ⟨⟨[]⟩, ⟨[(6, [])]⟩⟩ 6
      = (⟨⟨[]⟩, ⟨[(6, [])]⟩⟩, [LvCall.lv_dropdown_set_options 6 ""]) :=
  ⟨by decide,
    (refresh_loop_in_range (fun key => key) []).2.2.2.2.2.2 ⟨⟨[]⟩, ⟨[(6, [])]⟩⟩ 6
      (by decide)⟩

end HomeDicator
